import Mathlib

/-!
Verification of the dual-filtered tree-scan-and-serialize engine
(`src/file_processor.py`, `src/xml_generator.py`, `src/config_manager.py`,
`src/main.py`) against its natural-language specification.

The Python code is shallowly embedded: the filesystem is a finite tree
(`FSEntry`) whose nodes carry the observable facts the code queries
(sizes, UTF-8 decodability, and flags for the I/O errors the code
catches); the scanner's mutable per-instance dictionaries become an
explicit `ScanState` threaded through the recursion.  Python dict
counters initialized to `0` on first access are modeled as total
functions `Nat → Nat` defaulting to `0` (the code always initializes a
depth's entry before reading it, so the semantics agree).  Configured
limits are `Int` because the JSON configuration can hold negative
integers.
-/

/-- `content_exclude` section of the validated configuration
(`ConfigManager._load_config`). -/
structure ContentRules where
  extensions : List String
  files : List String
  maxDepth : Int
  maxFiles : Int
deriving Repr

/-- `structure_exclude` section of the validated configuration. -/
structure StructureRules where
  extensions : List String
  directories : List String
  files : List String
  maxDepth : Int
  maxFiles : Int
deriving Repr

/-- The validated configuration dictionary produced by
`ConfigManager._load_config`: keys `max_file_size_kb`, `content_exclude`,
`structure_exclude`. -/
structure LoadedConfig where
  maxFileSizeKb : Int
  contentExclude : ContentRules
  structureExclude : StructureRules
deriving Repr

/-- A filesystem entry as observed by the code.  A file records its base
name, size in bytes (`stat().st_size`), whether its bytes decode as
UTF-8 (`FileProcessor._is_utf8`), its decoded text, and whether the
`open`/`read` performed for content extraction raises an I/O error.  A
directory records its base name, whether `iterdir()` raises, and its
children. -/
inductive FSEntry where
  | file (name : String) (sizeBytes : Nat) (utf8 : Bool) (content : String)
      (readErr : Bool)
  | dir (name : String) (listErr : Bool) (children : List FSEntry)
deriving Repr

/-- `True` for directory entries (`Path.is_dir()`). -/
def FSEntry.isDirE : FSEntry → Bool
  | .file _ _ _ _ _ => false
  | .dir _ _ _ => true

/-- Base name of the entry (`Path.name`). -/
def FSEntry.ename : FSEntry → String
  | .file n _ _ _ _ => n
  | .dir n _ _ => n

mutual
/-- Size measure used for termination of the recursive walks. -/
def fsSize : FSEntry → Nat
  | .file _ _ _ _ _ => 1
  | .dir _ _ cs => 1 + sumSizes cs

/-- Total size of a list of entries. -/
def sumSizes : List FSEntry → Nat
  | [] => 0
  | e :: es => fsSize e + sumSizes es
end

theorem fsSize_pos (e : FSEntry) : 0 < fsSize e := by
  cases e <;> simp [fsSize] <;> omega

/-- `pathlib.PurePath.suffix`: the extension of the base name, i.e. the
segment from the last dot, provided that dot is neither the first nor
the last character; otherwise the empty string. -/
def pySuffix (name : String) : String :=
  let cs := name.toList
  match cs.reverse.findIdx? (· = '.') with
  | none => ""
  | some k =>
    let i := cs.length - 1 - k
    if 0 < i ∧ i < cs.length - 1 then ⟨cs.drop i⟩ else ""

/-- `str.lower()` on the names the scan sorts by (ASCII case folding;
the claims and counterexamples only use ASCII names). -/
def lowerName (s : String) : List Char := s.toList.map Char.toLower

/-- Python string `<=`: lexicographic comparison by code point. -/
def charListLe : List Char → List Char → Bool
  | [], _ => true
  | _ :: _, [] => false
  | a :: as, b :: bs => if a = b then charListLe as bs else decide (a < b)

/-- The sort key rank of `x.is_file()` inside Python's
`key=lambda x: (x.is_file(), x.name.lower())`: `False < True`. -/
def fileRank (e : FSEntry) : Nat := if e.isDirE then 0 else 1

/-- The `≤` induced by the sort key `(is_file, name.lower())`. -/
def itemLe (a b : FSEntry) : Bool :=
  decide (fileRank a < fileRank b) ||
    (decide (fileRank a = fileRank b) &&
      charListLe (lowerName a.ename) (lowerName b.ename))

/-- Stable insertion used to model Python's stable `sorted`. An element
is inserted before the first existing element it is `≤` to, so elements
with equal keys keep their original relative order. -/
def stableInsert (le : α → α → Bool) (a : α) : List α → List α
  | [] => [a]
  | b :: t => if le a b then a :: b :: t else b :: stableInsert le a t

/-- Stable sort modeling Python's Timsort-backed `sorted` (extensionally
equal to it for a total preorder key, since both are stable). -/
def stableSort (le : α → α → Bool) : List α → List α
  | [] => []
  | a :: t => stableInsert le a (stableSort le t)

theorem mem_stableInsert {le : α → α → Bool} {a x : α} {l : List α}
    (h : x ∈ stableInsert le a l) : x = a ∨ x ∈ l := by
  induction l with
  | nil => simpa [stableInsert] using h
  | cons b t ih =>
    by_cases hle : le a b
    · rcases (by simpa [stableInsert, hle] using h) with h' | h' | h'
      · exact Or.inl h'
      · exact Or.inr (by simp [h'])
      · exact Or.inr (by simp [h'])
    · rcases (by simpa [stableInsert, hle] using h) with h' | h'
      · exact Or.inr (by simp [h'])
      · rcases ih h' with h'' | h''
        · exact Or.inl h''
        · exact Or.inr (by simp [h''])

theorem mem_stableSort {le : α → α → Bool} {x : α} {l : List α}
    (h : x ∈ stableSort le l) : x ∈ l := by
  induction l with
  | nil => simpa [stableSort] using h
  | cons a t ih =>
    rcases mem_stableInsert (by simpa [stableSort] using h) with h' | h'
    · simp [h']
    · exact List.mem_cons_of_mem _ (ih h')

theorem sumSizes_stableInsert (a : FSEntry) (l : List FSEntry) :
    sumSizes (stableInsert itemLe a l) = fsSize a + sumSizes l := by
  induction l with
  | nil => simp [stableInsert, sumSizes]
  | cons b t ih =>
    by_cases hle : itemLe a b
    · simp [stableInsert, hle, sumSizes]
    · simp [stableInsert, hle, sumSizes, ih]; omega

theorem sumSizes_stableSort (l : List FSEntry) :
    sumSizes (stableSort itemLe l) = sumSizes l := by
  induction l with
  | nil => rfl
  | cons a t ih => simp [stableSort, sumSizes_stableInsert, ih, sumSizes]

theorem sumSizes_le_of_mem {e : FSEntry} {l : List FSEntry} (h : e ∈ l) :
    fsSize e ≤ sumSizes l := by
  induction l with
  | nil => cases h
  | cons a t ih =>
    rcases List.mem_cons.mp h with h' | h'
    · subst h'; simp [sumSizes]
    · have := ih h'; simp [sumSizes]; omega

/-- One extracted file content, an element of
`FileProcessor.files_content` (`{'path': …, 'content': …, 'depth': …}`). -/
structure ContentRecord where
  path : String
  content : String
  depth : Nat
deriving Repr, DecidableEq

/-- The `DirectoryStructure` dataclass of `file_processor.py`. -/
structure DirectoryStructure where
  name : String
  path : String
  is_dir : Bool
  children : List DirectoryStructure
  depth : Nat
deriving Repr

/-- The scanner's mutable per-instance state: the two per-depth counter
dictionaries and the accumulated content records. -/
structure ScanState where
  structCount : Nat → Nat
  contentCount : Nat → Nat
  filesContent : List ContentRecord

/-- Increment a per-depth counter at one depth. -/
def bumpAt (f : Nat → Nat) (d0 : Nat) : Nat → Nat :=
  fun d => if d = d0 then f d + 1 else f d

/-- The zeroed state installed by `scan_directory` before a scan. -/
def initState : ScanState := ⟨fun _ => 0, fun _ => 0, []⟩

/-- `FileProcessor._should_include_content`: size, extension, exact-name
and UTF-8 checks, in the code's order.  (`stat` always succeeds in the
model; none of the claims involve stat failures.) -/
def shouldIncludeContent (cfg : LoadedConfig) (name : String)
    (sizeBytes : Nat) (utf8 : Bool) : Bool :=
  if (sizeBytes : Int) > cfg.maxFileSizeKb * 1024 then false
  else if pySuffix name ∈ cfg.contentExclude.extensions then false
  else if name ∈ cfg.contentExclude.files then false
  else if !utf8 then false
  else true

/-- The structure decision of `_process_directory` for one file entry
(lines 103–109): a file node is appended, and the structure counter for
the current depth incremented, iff the file passes the extension and
name filters and that counter is below `structure_exclude.max_files`. -/
def fileStructRes (cfg : LoadedConfig) (fn : String) (depth : Nat)
    (dirRel : String) (st : ScanState) :
    Option DirectoryStructure × ScanState :=
  if pySuffix fn ∉ cfg.structureExclude.extensions ∧
      fn ∉ cfg.structureExclude.files then
    if (st.structCount depth : Int) < cfg.structureExclude.maxFiles then
      (some ⟨fn, dirRel ++ "/" ++ fn, false, [], depth⟩,
        { st with structCount := bumpAt st.structCount depth })
    else (none, st)
  else (none, st)

/-- The content decision of `_process_directory` for one file entry
(lines 111–129): depth gate, `_should_include_content`, per-depth
counter gate, then the actual read; a failing read (`readErr`) is
caught per file, appending nothing. -/
def fileContentStep (cfg : LoadedConfig) (fn : String) (sizeBytes : Nat)
    (utf8 : Bool) (content : String) (readErr : Bool) (depth : Nat)
    (dirRel : String) (st : ScanState) : ScanState :=
  if (depth : Int) ≤ cfg.contentExclude.maxDepth then
    if shouldIncludeContent cfg fn sizeBytes utf8 then
      if (st.contentCount depth : Int) < cfg.contentExclude.maxFiles then
        if readErr then st
        else
          { st with
            filesContent :=
              st.filesContent ++ [⟨dirRel ++ "/" ++ fn, content, depth⟩],
            contentCount := bumpAt st.contentCount depth }
      else st
    else st
  else st

mutual
/-- `FileProcessor._process_directory`: builds the node for the
directory named `name` (children `children`, `iterdir()` failure flag
`listErr`) at `depth` under parent relative path `parentRel`, threading
the counter state.  Returns `none` exactly when `depth` exceeds the
structure depth limit.  When `iterdir()` raises, the exception is
caught around the whole loop, so the node is still returned, with the
children accumulated so far (none). -/
def processDirectory (cfg : LoadedConfig) (name : String) (listErr : Bool)
    (children : List FSEntry) (depth : Nat) (parentRel : String)
    (st : ScanState) : Option DirectoryStructure × ScanState :=
  if (depth : Int) > cfg.structureExclude.maxDepth then (none, st)
  else
    let dirRel := if parentRel = "" then name else parentRel ++ "/" ++ name
    if listErr then (some ⟨name, dirRel, true, [], depth⟩, st)
    else
      let r := processItems cfg (stableSort itemLe children) depth dirRel st
      (some ⟨name, dirRel, true, r.1, depth⟩, r.2)
termination_by (sumSizes children, 1)
decreasing_by
  simp_wf
  rw [sumSizes_stableSort]
  exact Prod.Lex.right _ (by omega)

/-- The `for item in items:` loop of `_process_directory`, over the
already-sorted sibling list of the directory whose relative path is
`dirRel` and whose depth is `depth`.  Returns the child nodes appended
to the directory node under construction, and the final state. -/
def processItems (cfg : LoadedConfig) (items : List FSEntry) (depth : Nat)
    (dirRel : String) (st : ScanState) : List DirectoryStructure × ScanState :=
  match items with
  | [] => ([], st)
  | .dir dn dListErr dChildren :: rest =>
    if dn ∈ cfg.structureExclude.directories then
      processItems cfg rest depth dirRel st
    else
      match processDirectory cfg dn dListErr dChildren (depth + 1) dirRel st with
      | (some child, st1) =>
        let st2 : ScanState :=
          { st1 with structCount := bumpAt st1.structCount depth }
        let r := processItems cfg rest depth dirRel st2
        (child :: r.1, r.2)
      | (none, st1) => processItems cfg rest depth dirRel st1
  | .file fn sizeBytes utf8 content readErr :: rest =>
    let structRes := fileStructRes cfg fn depth dirRel st
    let st2 := fileContentStep cfg fn sizeBytes utf8 content readErr depth
      dirRel structRes.2
    let r := processItems cfg rest depth dirRel st2
    (structRes.1.toList ++ r.1, r.2)
termination_by (sumSizes items, 0)
decreasing_by
  all_goals simp_wf
  all_goals (apply Prod.Lex.left; simp only [sumSizes, fsSize]; omega)
end

/-- The `ScanResult` dataclass (field `structure` renamed `struct`,
`structure` being a Lean keyword).  `struct` is an `Option` because
`_process_directory` returns `None` when the configured structure
`max_depth` is negative. -/
structure ScanResult where
  struct : Option DirectoryStructure
  files_content : List ContentRecord

/-- `FileProcessor.scan_directory`: raises `FileNotFoundError` iff the
root path does not exist (modeled by `none`); otherwise resets the
counters and record list and processes the root.  A root that exists
but is a file makes `iterdir()` raise `NotADirectoryError`, which the
code catches, so it is processed like a directory whose listing
failed. -/
def scanDirectory (cfg : LoadedConfig) : Option FSEntry → Except String ScanResult
  | none => .error "Path does not exist"
  | some (.dir n listErr cs) =>
    let r := processDirectory cfg n listErr cs 0 "" initState
    .ok ⟨r.1, r.2.filesContent⟩
  | some (.file n _ _ _ _) =>
    let r := processDirectory cfg n true [] 0 "" initState
    .ok ⟨r.1, r.2.filesContent⟩

theorem processDirectory_stop (cfg : LoadedConfig) (name : String)
    (listErr : Bool) (children : List FSEntry) (depth : Nat)
    (parentRel : String) (st : ScanState)
    (h : (depth : Int) > cfg.structureExclude.maxDepth) :
    processDirectory cfg name listErr children depth parentRel st =
      (none, st) := by
  rw [processDirectory.eq_def]
  simp [h]

theorem processDirectory_listErr (cfg : LoadedConfig) (name : String)
    (children : List FSEntry) (depth : Nat) (parentRel : String)
    (st : ScanState) (h : ¬(depth : Int) > cfg.structureExclude.maxDepth) :
    processDirectory cfg name true children depth parentRel st =
      (some ⟨name, if parentRel = "" then name else parentRel ++ "/" ++ name,
        true, [], depth⟩, st) := by
  rw [processDirectory.eq_def]
  simp [h]

theorem processDirectory_go (cfg : LoadedConfig) (name : String)
    (children : List FSEntry) (depth : Nat) (parentRel : String)
    (st : ScanState) (h : ¬(depth : Int) > cfg.structureExclude.maxDepth) :
    processDirectory cfg name false children depth parentRel st =
      (let dirRel := if parentRel = "" then name else parentRel ++ "/" ++ name
       let r := processItems cfg (stableSort itemLe children) depth dirRel st
       (some ⟨name, dirRel, true, r.1, depth⟩, r.2)) := by
  rw [processDirectory.eq_def]
  simp [h]

theorem processItems_nil (cfg : LoadedConfig) (depth : Nat) (dirRel : String)
    (st : ScanState) : processItems cfg [] depth dirRel st = ([], st) := by
  rw [processItems.eq_def]

theorem processItems_dir_excluded (cfg : LoadedConfig) (dn : String)
    (dListErr : Bool) (dChildren : List FSEntry) (rest : List FSEntry)
    (depth : Nat) (dirRel : String) (st : ScanState)
    (h : dn ∈ cfg.structureExclude.directories) :
    processItems cfg (.dir dn dListErr dChildren :: rest) depth dirRel st =
      processItems cfg rest depth dirRel st := by
  rw [processItems.eq_def]
  simp [h]

theorem processItems_dir_none (cfg : LoadedConfig) (dn : String)
    (dListErr : Bool) (dChildren : List FSEntry) (rest : List FSEntry)
    (depth : Nat) (dirRel : String) (st st1 : ScanState)
    (h : dn ∉ cfg.structureExclude.directories)
    (hpd : processDirectory cfg dn dListErr dChildren (depth + 1) dirRel st =
      (none, st1)) :
    processItems cfg (.dir dn dListErr dChildren :: rest) depth dirRel st =
      processItems cfg rest depth dirRel st1 := by
  rw [processItems.eq_def]
  simp [h, hpd]

theorem processItems_dir_some (cfg : LoadedConfig) (dn : String)
    (dListErr : Bool) (dChildren : List FSEntry) (rest : List FSEntry)
    (depth : Nat) (dirRel : String) (st st1 : ScanState)
    (child : DirectoryStructure)
    (h : dn ∉ cfg.structureExclude.directories)
    (hpd : processDirectory cfg dn dListErr dChildren (depth + 1) dirRel st =
      (some child, st1)) :
    processItems cfg (.dir dn dListErr dChildren :: rest) depth dirRel st =
      (child :: (processItems cfg rest depth dirRel
          { st1 with structCount := bumpAt st1.structCount depth }).1,
        (processItems cfg rest depth dirRel
          { st1 with structCount := bumpAt st1.structCount depth }).2) := by
  rw [processItems.eq_def]
  simp [h, hpd]

theorem processItems_file (cfg : LoadedConfig) (fn : String) (sizeBytes : Nat)
    (utf8 : Bool) (content : String) (readErr : Bool) (rest : List FSEntry)
    (depth : Nat) (dirRel : String) (st : ScanState) :
    processItems cfg (.file fn sizeBytes utf8 content readErr :: rest) depth
        dirRel st =
      ((fileStructRes cfg fn depth dirRel st).1.toList ++
        (processItems cfg rest depth dirRel
          (fileContentStep cfg fn sizeBytes utf8 content readErr depth dirRel
            (fileStructRes cfg fn depth dirRel st).2)).1,
       (processItems cfg rest depth dirRel
          (fileContentStep cfg fn sizeBytes utf8 content readErr depth dirRel
            (fileStructRes cfg fn depth dirRel st).2)).2) := by
  rw [processItems.eq_def]

theorem processItems_append (cfg : LoadedConfig) (xs ys : List FSEntry)
    (d : Nat) (rel : String) (st : ScanState) :
    processItems cfg (xs ++ ys) d rel st =
      ((processItems cfg xs d rel st).1 ++
        (processItems cfg ys d rel (processItems cfg xs d rel st).2).1,
       (processItems cfg ys d rel (processItems cfg xs d rel st).2).2) := by
  induction xs generalizing st with
  | nil => simp [processItems_nil]
  | cons x rest ih =>
    cases x with
    | dir dn dListErr dChildren =>
      by_cases hx : dn ∈ cfg.structureExclude.directories
      · rw [List.cons_append, processItems_dir_excluded cfg dn _ _ _ _ _ _ hx,
          processItems_dir_excluded cfg dn _ _ _ _ _ _ hx, ih]
      · rcases hpd : processDirectory cfg dn dListErr dChildren (d + 1) rel st
          with ⟨childOpt, st1⟩
        cases childOpt with
        | some child =>
          rw [List.cons_append,
            processItems_dir_some cfg dn _ _ _ _ _ _ _ _ hx hpd,
            processItems_dir_some cfg dn _ _ _ _ _ _ _ _ hx hpd, ih]
          simp
        | none =>
          rw [List.cons_append,
            processItems_dir_none cfg dn _ _ _ _ _ _ _ hx hpd,
            processItems_dir_none cfg dn _ _ _ _ _ _ _ hx hpd, ih]
    | file fn sizeBytes utf8 content readErr =>
      rw [List.cons_append, processItems_file, processItems_file, ih]
      simp

/-- Number of records extracted at one depth. -/
def recsAt (d : Nat) (l : List ContentRecord) : Nat :=
  l.countP (fun r => r.depth = d)

theorem recsAt_append (d : Nat) (l1 l2 : List ContentRecord) :
    recsAt d (l1 ++ l2) = recsAt d l1 + recsAt d l2 := by
  simp [recsAt, List.countP_append]

/-- Accounting relation between two scanner states: the second extends
the first's record list, the content counters account exactly for the
appended records per depth, and stay bounded by the configured
per-depth cap. -/
def ContentAcct (cfg : LoadedConfig) (st st' : ScanState) : Prop :=
  (∃ Δ, st'.filesContent = st.filesContent ++ Δ ∧
      ∀ d, st'.contentCount d = st.contentCount d + recsAt d Δ) ∧
  ∀ d, st'.contentCount d ≤
    max (st.contentCount d) cfg.contentExclude.maxFiles.toNat

theorem contentAcct_refl (cfg : LoadedConfig) (st : ScanState) :
    ContentAcct cfg st st :=
  ⟨⟨[], by simp [recsAt]⟩, fun d => le_max_left _ _⟩

theorem contentAcct_of_eq (cfg : LoadedConfig) {st st' : ScanState}
    (h1 : st'.filesContent = st.filesContent)
    (h2 : st'.contentCount = st.contentCount) : ContentAcct cfg st st' :=
  ⟨⟨[], by simp [h1, h2, recsAt]⟩, fun d => by rw [h2]; exact le_max_left _ _⟩

theorem contentAcct_trans (cfg : LoadedConfig) {st1 st2 st3 : ScanState}
    (h12 : ContentAcct cfg st1 st2) (h23 : ContentAcct cfg st2 st3) :
    ContentAcct cfg st1 st3 := by
  obtain ⟨⟨Δ1, hΔ1, hc1⟩, hb1⟩ := h12
  obtain ⟨⟨Δ2, hΔ2, hc2⟩, hb2⟩ := h23
  refine ⟨⟨Δ1 ++ Δ2, by simp [hΔ2, hΔ1], fun d => ?_⟩, fun d => ?_⟩
  · rw [recsAt_append, hc2, hc1]; omega
  · have := hb2 d; have := hb1 d; omega

/-- One file step preserves the accounting: the record is appended, and
the counter incremented, only below the cap. -/
theorem contentAcct_fileContentStep (cfg : LoadedConfig) (fn : String)
    (sizeBytes : Nat) (utf8 : Bool) (content : String) (readErr : Bool)
    (depth : Nat) (dirRel : String) (st : ScanState) :
    ContentAcct cfg st
      (fileContentStep cfg fn sizeBytes utf8 content readErr depth dirRel st) := by
  unfold fileContentStep
  by_cases h1 : (depth : Int) ≤ cfg.contentExclude.maxDepth
  · by_cases h2 : shouldIncludeContent cfg fn sizeBytes utf8
    · by_cases h3 : (st.contentCount depth : Int) < cfg.contentExclude.maxFiles
      · by_cases h4 : readErr
        · simp only [h1, h2, h3, h4, if_true, if_pos]; exact contentAcct_refl cfg st
        · simp only [h1, h2, h3, h4, if_pos, if_neg, Bool.not_eq_true]
          refine ⟨⟨[⟨dirRel ++ "/" ++ fn, content, depth⟩], by simp, fun d => ?_⟩,
            fun d => ?_⟩
          · simp [bumpAt, recsAt, List.countP_cons]
            by_cases hd : d = depth
            · subst hd; simp
            · simp [hd, Ne.symm hd]
          · simp only [bumpAt]
            by_cases hd : d = depth
            · subst hd
              rw [if_pos rfl]
              omega
            · rw [if_neg hd]
              omega
      · simp only [h1, h2, h3, if_pos, if_neg]; exact contentAcct_refl cfg st
    · simp only [h1, h2, if_pos, if_neg, Bool.not_eq_true]
      exact contentAcct_refl cfg st
  · simp only [h1, if_neg]; exact contentAcct_refl cfg st

/-- The scanner's content side is a per-depth accumulator: across one
whole (sub)walk the counter at each depth grows by exactly the number
of records appended at that depth, and never passes the configured cap
(once at or above the cap — in particular when reaching it — no further
record at that depth is appended anywhere in the walk). -/
theorem contentAcct_processItems (cfg : LoadedConfig) :
    ∀ (items : List FSEntry) (depth : Nat) (dirRel : String) (st : ScanState),
      ContentAcct cfg st (processItems cfg items depth dirRel st).2 := by
  intro items depth dirRel st
  refine processItems.induct cfg
    (fun name listErr children depth parentRel st =>
      ContentAcct cfg st
        (processDirectory cfg name listErr children depth parentRel st).2)
    (fun items depth dirRel st =>
      ContentAcct cfg st (processItems cfg items depth dirRel st).2)
    ?_ ?_ ?_ ?_ ?_ ?_ ?_ ?_ items depth dirRel st
  · intro name listErr children depth parentRel st h
    rw [processDirectory_stop cfg name listErr children depth parentRel st h]
    exact contentAcct_refl cfg st
  · intro name children depth parentRel st h
    rw [processDirectory_listErr cfg name children depth parentRel st h]
    exact contentAcct_refl cfg st
  · intro name listErr children depth parentRel st h dirRel hne ih
    cases listErr with
    | true => simp at hne
    | false =>
      rw [processDirectory_go cfg name children depth parentRel st h]
      exact ih
  · intro depth dirRel st
    rw [processItems_nil]
    exact contentAcct_refl cfg st
  · intro depth dirRel st dn dListErr dChildren rest hmem ih
    rw [processItems_dir_excluded cfg dn dListErr dChildren rest depth dirRel st hmem]
    exact ih
  · intro depth dirRel st dn dListErr dChildren rest hmem child st1 hpd st2 ih1 ih2
    rw [processItems_dir_some cfg dn dListErr dChildren rest depth dirRel st st1
      child hmem hpd]
    have h1 : ContentAcct cfg st st1 := by rw [hpd] at ih1; exact ih1
    have h2 : ContentAcct cfg st1 st2 := contentAcct_of_eq cfg rfl rfl
    exact contentAcct_trans cfg (contentAcct_trans cfg h1 h2) ih2
  · intro depth dirRel st dn dListErr dChildren rest hmem st1 hpd ih1 ih2
    rw [processItems_dir_none cfg dn dListErr dChildren rest depth dirRel st st1
      hmem hpd]
    have h1 : ContentAcct cfg st st1 := by rw [hpd] at ih1; exact ih1
    exact contentAcct_trans cfg h1 ih2
  · intro depth dirRel st fn sizeBytes utf8 content readErr rest structRes st2 ih
    rw [processItems_file]
    have hs : ContentAcct cfg st (fileStructRes cfg fn depth dirRel st).2 := by
      unfold fileStructRes
      by_cases hf : pySuffix fn ∉ cfg.structureExclude.extensions ∧
          fn ∉ cfg.structureExclude.files
      · by_cases hc : (st.structCount depth : Int) < cfg.structureExclude.maxFiles
        · simp only [hf, hc, if_pos]; exact contentAcct_of_eq cfg rfl rfl
        · simp only [hf, hc, if_pos, if_neg]; exact contentAcct_refl cfg st
      · simp only [hf, if_neg]; exact contentAcct_refl cfg st
    have hstep := contentAcct_fileContentStep cfg fn sizeBytes utf8 content readErr
      depth dirRel (fileStructRes cfg fn depth dirRel st).2
    exact contentAcct_trans cfg (contentAcct_trans cfg hs hstep) ih

theorem contentAcct_processDirectory (cfg : LoadedConfig) (name : String)
    (listErr : Bool) (children : List FSEntry) (depth : Nat)
    (parentRel : String) (st : ScanState) :
    ContentAcct cfg st
      (processDirectory cfg name listErr children depth parentRel st).2 := by
  by_cases h : (depth : Int) > cfg.structureExclude.maxDepth
  · rw [processDirectory_stop cfg name listErr children depth parentRel st h]
    exact contentAcct_refl cfg st
  · cases listErr with
    | true =>
      rw [processDirectory_listErr cfg name children depth parentRel st h]
      exact contentAcct_refl cfg st
    | false =>
      rw [processDirectory_go cfg name children depth parentRel st h]
      exact contentAcct_processItems cfg _ _ _ _

/-- Whole-scan corollary: at every depth, the number of extracted
records is bounded by `content_exclude.max_files` — globally across all
directories of the tree, because the counter is shared per depth. -/
theorem scan_records_bound (cfg : LoadedConfig) (fs : FSEntry)
    (r : ScanResult) (d : Nat)
    (h : scanDirectory cfg (some fs) = .ok r) :
    recsAt d r.files_content ≤ cfg.contentExclude.maxFiles.toNat := by
  have key : ∀ (name : String) (listErr : Bool) (children : List FSEntry),
      recsAt d (processDirectory cfg name listErr children 0 "" initState).2.filesContent ≤
        cfg.contentExclude.maxFiles.toNat := by
    intro name listErr children
    obtain ⟨⟨Δ, hΔ, hc⟩, hb⟩ :=
      contentAcct_processDirectory cfg name listErr children 0 "" initState
    have h1 := hc d
    have h2 := hb d
    rw [hΔ, recsAt_append]
    have h0 : recsAt d initState.filesContent = 0 := by simp [initState, recsAt]
    rw [h0]
    have h3 : initState.contentCount d = 0 := rfl
    rw [h3] at h1 h2
    omega
  cases fs with
  | dir n listErr cs =>
    simp only [scanDirectory] at h
    cases h
    exact key n listErr cs
  | file n sz u c re =>
    simp only [scanDirectory] at h
    cases h
    exact key n true []

/-- The depth discipline the scanner actually implements: a directory
child carries its parent's depth plus one, while a file child carries
its parent's depth itself (`_process_directory` creates file nodes with
`depth=current_depth`, lines 105–107). -/
def depthInv (nd : DirectoryStructure) : Bool :=
  nd.children.attach.all fun c =>
    decide (c.1.depth = if c.1.is_dir then nd.depth + 1 else nd.depth) &&
      depthInv c.1
decreasing_by
  have := List.sizeOf_lt_of_mem c.2
  cases nd with
  | mk name path is_dir children depth => simp at this ⊢; omega

theorem depthInv_iff (nd : DirectoryStructure) :
    depthInv nd = true ↔ ∀ c ∈ nd.children,
      (c.depth = if c.is_dir then nd.depth + 1 else nd.depth) ∧
        depthInv c = true := by
  rw [depthInv]
  simp [List.all_eq_true]

theorem fileStructRes_node (cfg : LoadedConfig) (fn : String) (depth : Nat)
    (dirRel : String) (st : ScanState) (nd : DirectoryStructure)
    (h : (fileStructRes cfg fn depth dirRel st).1 = some nd) :
    nd = ⟨fn, dirRel ++ "/" ++ fn, false, [], depth⟩ := by
  unfold fileStructRes at h
  by_cases h1 : pySuffix fn ∉ cfg.structureExclude.extensions ∧
      fn ∉ cfg.structureExclude.files
  · by_cases h2 : (st.structCount depth : Int) < cfg.structureExclude.maxFiles
    · simp only [h1, h2, if_pos] at h
      exact (Option.some_inj.mp h).symm
    · simp [h1, h2] at h
  · simp [h1] at h

theorem depthInv_processItems (cfg : LoadedConfig) :
    ∀ (items : List FSEntry) (depth : Nat) (dirRel : String) (st : ScanState),
      ∀ nd ∈ (processItems cfg items depth dirRel st).1,
        (nd.is_dir = true → nd.depth = depth + 1) ∧
        (nd.is_dir = false → nd.depth = depth) ∧ depthInv nd = true := by
  intro items depth dirRel st
  refine processItems.induct cfg
    (fun name listErr children depth parentRel st =>
      ∀ child st1,
        processDirectory cfg name listErr children depth parentRel st =
          (some child, st1) →
        child.is_dir = true ∧ child.depth = depth ∧ depthInv child = true)
    (fun items depth dirRel st =>
      ∀ nd ∈ (processItems cfg items depth dirRel st).1,
        (nd.is_dir = true → nd.depth = depth + 1) ∧
        (nd.is_dir = false → nd.depth = depth) ∧ depthInv nd = true)
    ?_ ?_ ?_ ?_ ?_ ?_ ?_ ?_ items depth dirRel st
  · intro name listErr children depth parentRel st h child st1 heq
    rw [processDirectory_stop cfg name listErr children depth parentRel st h]
      at heq
    simp at heq
  · intro name children depth parentRel st h child st1 heq
    rw [processDirectory_listErr cfg name children depth parentRel st h] at heq
    obtain ⟨h1, -⟩ := Prod.mk.injEq .. ▸ heq
    cases Option.some_inj.mp (by exact congrArg Prod.fst heq)
    refine ⟨rfl, rfl, ?_⟩
    rw [depthInv_iff]
    intro c hc
    simp at hc
  · intro name listErr children depth parentRel st h dirRel hne ih child st1 heq
    cases listErr with
    | true => simp at hne
    | false =>
      rw [processDirectory_go cfg name children depth parentRel st h] at heq
      cases Option.some_inj.mp (by exact congrArg Prod.fst heq)
      refine ⟨rfl, rfl, ?_⟩
      rw [depthInv_iff]
      intro c hc
      obtain ⟨hd1, hd2, hinv⟩ := ih c hc
      refine ⟨?_, hinv⟩
      cases hdir : c.is_dir with
      | true => simp [hdir, hd1 hdir]
      | false => simp [hdir, hd2 hdir]
  · intro depth dirRel st nd hnd
    rw [processItems_nil] at hnd
    simp at hnd
  · intro depth dirRel st dn dListErr dChildren rest hmem ih nd hnd
    rw [processItems_dir_excluded cfg dn dListErr dChildren rest depth dirRel st
      hmem] at hnd
    exact ih nd hnd
  · intro depth dirRel st dn dListErr dChildren rest hmem child st1 hpd st2 ih1
      ih2 nd hnd
    rw [processItems_dir_some cfg dn dListErr dChildren rest depth dirRel st st1
      child hmem hpd] at hnd
    rcases List.mem_cons.mp hnd with h' | h'
    · subst h'
      obtain ⟨hdir, hdep, hinv⟩ := ih1 nd st1 hpd
      exact ⟨fun _ => hdep, fun hf => absurd hdir (by simp [hf]), hinv⟩
    · exact ih2 nd h'
  · intro depth dirRel st dn dListErr dChildren rest hmem st1 hpd ih1 ih2 nd hnd
    rw [processItems_dir_none cfg dn dListErr dChildren rest depth dirRel st st1
      hmem hpd] at hnd
    exact ih2 nd hnd
  · intro depth dirRel st fn sizeBytes utf8 content readErr rest structRes st2
      ih nd hnd
    rw [processItems_file] at hnd
    rcases List.mem_append.mp hnd with h' | h'
    · cases ho : (fileStructRes cfg fn depth dirRel st).1 with
      | none => rw [ho] at h'; simp at h'
      | some fnode =>
        rw [ho] at h'
        simp at h'
        subst h'
        have hval := fileStructRes_node cfg fn depth dirRel st nd ho
        subst hval
        refine ⟨by intro hc; simp at hc, fun _ => rfl, ?_⟩
        rw [depthInv_iff]
        intro c hc
        simp at hc
    · exact ih nd h'

/-- `processDirectory` always returns a directory node at the depth it
was called with, whose whole subtree satisfies the depth discipline. -/
theorem depthInv_processDirectory (cfg : LoadedConfig) (name : String)
    (listErr : Bool) (children : List FSEntry) (depth : Nat)
    (parentRel : String) (st : ScanState) (child : DirectoryStructure)
    (st1 : ScanState)
    (heq : processDirectory cfg name listErr children depth parentRel st =
      (some child, st1)) :
    child.is_dir = true ∧ child.depth = depth ∧ depthInv child = true := by
  by_cases h : (depth : Int) > cfg.structureExclude.maxDepth
  · rw [processDirectory_stop cfg name listErr children depth parentRel st h]
      at heq
    simp at heq
  · cases listErr with
    | true =>
      rw [processDirectory_listErr cfg name children depth parentRel st h]
        at heq
      cases Option.some_inj.mp (by exact congrArg Prod.fst heq)
      refine ⟨rfl, rfl, ?_⟩
      rw [depthInv_iff]
      intro c hc
      simp at hc
    | false =>
      rw [processDirectory_go cfg name children depth parentRel st h] at heq
      cases Option.some_inj.mp (by exact congrArg Prod.fst heq)
      refine ⟨rfl, rfl, ?_⟩
      rw [depthInv_iff]
      intro c hc
      obtain ⟨hd1, hd2, hinv⟩ := depthInv_processItems cfg _ _ _ _ c hc
      refine ⟨?_, hinv⟩
      cases hdir : c.is_dir with
      | true => simp [hdir, hd1 hdir]
      | false => simp [hdir, hd2 hdir]

/-- Modelled from the spec's content-decision sentence (§4.1 step 4):
"attempt extraction if depth ≤ contentRules.maxDepth AND file size ≤
settings max size AND extension not excluded AND name not excluded AND
decodable text AND contentCount[depth] < maxEntriesPerDirectory",
written as one flat conjunction over the counter value at the moment
the file is visited. -/
def specContentDecision (cfg : LoadedConfig) (depth : Nat) (cnt : Nat)
    (name : String) (sizeBytes : Nat) (utf8 : Bool) : Prop :=
  (depth : Int) ≤ cfg.contentExclude.maxDepth ∧
  (sizeBytes : Int) ≤ cfg.maxFileSizeKb * 1024 ∧
  pySuffix name ∉ cfg.contentExclude.extensions ∧
  name ∉ cfg.contentExclude.files ∧
  utf8 = true ∧
  (cnt : Int) < cfg.contentExclude.maxFiles

instance (cfg : LoadedConfig) (depth cnt : Nat) (name : String)
    (sizeBytes : Nat) (utf8 : Bool) :
    Decidable (specContentDecision cfg depth cnt name sizeBytes utf8) := by
  unfold specContentDecision
  infer_instance

theorem shouldIncludeContent_iff (cfg : LoadedConfig) (name : String)
    (sizeBytes : Nat) (utf8 : Bool) :
    shouldIncludeContent cfg name sizeBytes utf8 = true ↔
      ((sizeBytes : Int) ≤ cfg.maxFileSizeKb * 1024 ∧
        pySuffix name ∉ cfg.contentExclude.extensions ∧
        name ∉ cfg.contentExclude.files ∧ utf8 = true) := by
  constructor
  · intro h
    unfold shouldIncludeContent at h
    by_cases h1 : (sizeBytes : Int) > cfg.maxFileSizeKb * 1024
    · rw [if_pos h1] at h; simp at h
    · rw [if_neg h1] at h
      by_cases h2 : pySuffix name ∈ cfg.contentExclude.extensions
      · rw [if_pos h2] at h; simp at h
      · rw [if_neg h2] at h
        by_cases h3 : name ∈ cfg.contentExclude.files
        · rw [if_pos h3] at h; simp at h
        · rw [if_neg h3] at h
          cases hu : utf8 with
          | false => rw [hu] at h; simp at h
          | true => exact ⟨by omega, h2, h3, rfl⟩
  · rintro ⟨hs, he, hn, hu⟩
    unfold shouldIncludeContent
    rw [if_neg (by omega), if_neg he, if_neg hn, hu]
    simp

/-- The structure decision for a file never touches the content side of
the state. -/
theorem fileStructRes_content_side (cfg : LoadedConfig) (fn : String)
    (depth : Nat) (dirRel : String) (st : ScanState) :
    (fileStructRes cfg fn depth dirRel st).2.contentCount = st.contentCount ∧
    (fileStructRes cfg fn depth dirRel st).2.filesContent = st.filesContent := by
  unfold fileStructRes
  by_cases h1 : pySuffix fn ∉ cfg.structureExclude.extensions ∧
      fn ∉ cfg.structureExclude.files
  · by_cases h2 : (st.structCount depth : Int) < cfg.structureExclude.maxFiles
    · simp [h1, h2]
    · simp [h1, h2]
  · simp [h1]

/-- The operational content step of the scanner, for a file whose read
succeeds, equals the spec's flat conjunction: the record is appended,
and the counter incremented, exactly when `specContentDecision` holds
of the counter value at visit time. -/
theorem fileContentStep_spec (cfg : LoadedConfig) (fn : String)
    (sizeBytes : Nat) (utf8 : Bool) (content : String) (depth : Nat)
    (dirRel : String) (st : ScanState) :
    fileContentStep cfg fn sizeBytes utf8 content false depth dirRel st =
      if specContentDecision cfg depth (st.contentCount depth) fn sizeBytes
          utf8 then
        { st with
          filesContent :=
            st.filesContent ++ [⟨dirRel ++ "/" ++ fn, content, depth⟩],
          contentCount := bumpAt st.contentCount depth }
      else st := by
  by_cases h1 : (depth : Int) ≤ cfg.contentExclude.maxDepth
  · by_cases h2 : shouldIncludeContent cfg fn sizeBytes utf8 = true
    · obtain ⟨hs, he, hn, hu⟩ :=
        (shouldIncludeContent_iff cfg fn sizeBytes utf8).mp h2
      by_cases h3 : (st.contentCount depth : Int) < cfg.contentExclude.maxFiles
      · have hd : specContentDecision cfg depth (st.contentCount depth) fn
            sizeBytes utf8 := ⟨h1, hs, he, hn, hu, h3⟩
        simp [fileContentStep, h1, h2, h3, hd]
      · have hd : ¬specContentDecision cfg depth (st.contentCount depth) fn
            sizeBytes utf8 := by rintro ⟨-, -, -, -, -, hc⟩; exact h3 hc
        simp [fileContentStep, h1, h2, h3, hd]
    · have hd : ¬specContentDecision cfg depth (st.contentCount depth) fn
          sizeBytes utf8 := by
        rintro ⟨-, hs, he, hn, hu, -⟩
        exact h2 ((shouldIncludeContent_iff cfg fn sizeBytes utf8).mpr
          ⟨hs, he, hn, hu⟩)
      simp [fileContentStep, h1, h2, hd]
  · have hd : ¬specContentDecision cfg depth (st.contentCount depth) fn
        sizeBytes utf8 := by rintro ⟨hdep, -⟩; exact h1 hdep
    simp [fileContentStep, h1, hd]

/-- The character class of `XMLGenerator.XML_VALID_CHARS`: the regex
`[^\x09\x0A\x0D\x20-\x7E\x85\xA0-\xFF]` matches precisely the
characters this predicate rejects. -/
def validXmlChar (c : Char) : Bool :=
  decide (c = '\t' ∨ c = '\n' ∨ c = '\r' ∨
    (0x20 ≤ c.toNat ∧ c.toNat ≤ 0x7E) ∨ c.toNat = 0x85 ∨
    (0xA0 ≤ c.toNat ∧ c.toNat ≤ 0xFF))

/-- `XMLGenerator._clean_xml_string`: strips the characters
`XML_VALID_CHARS` rejects.  (Defined by the class; `generate_xml` never
applies it to content.) -/
def cleanXmlString (s : String) : String := ⟨s.toList.filter validXmlChar⟩

/-- Characters kept verbatim by `_sanitize_tag_name`'s first
substitution (`[a-zA-Z0-9\-_.]`). -/
def tagAllowed (c : Char) : Bool :=
  decide (('a' ≤ c ∧ c ≤ 'z') ∨ ('A' ≤ c ∧ c ≤ 'Z') ∨
    ('0' ≤ c ∧ c ≤ '9') ∨ c = '-' ∨ c = '_' ∨ c = '.')

/-- The separator class `[_\-.]` of `_sanitize_tag_name`'s collapsing
regex. -/
def isSeparator (c : Char) : Bool := decide (c = '_' ∨ c = '-' ∨ c = '.')

/-- ASCII letter (equivalent to Python's `str.isalpha` on the post-
substitution alphabet `[a-zA-Z0-9_.-]`). -/
def isAsciiAlpha (c : Char) : Bool :=
  decide (('a' ≤ c ∧ c ≤ 'z') ∨ ('A' ≤ c ∧ c ≤ 'Z'))

/-- `re.sub(r'[_\-\.]{2,}', '_', …)`: each maximal run of two or more
separator characters becomes a single underscore; an isolated separator
is kept as is. -/
def collapseRuns (cs : List Char) : List Char :=
  match cs with
  | [] => []
  | c :: t =>
    if isSeparator c && (match t with | d :: _ => isSeparator d | [] => false)
    then '_' :: collapseRuns (t.dropWhile (fun d => isSeparator d))
    else c :: collapseRuns t
termination_by cs.length
decreasing_by
  · have h := (List.dropWhile_sublist (l := t)
      (p := fun d => isSeparator d)).length_le
    simp; omega
  · simp

/-- `XMLGenerator._sanitize_tag_name`. -/
def sanitizeTagName (name : String) : String :=
  let s1 := name.toList.map (fun c => if tagAllowed c then c else '_')
  let s2 :=
    match s1 with
    | [] => ['_']
    | c :: _ => if isAsciiAlpha c || c = '_' then s1 else '_' :: s1
  let s3 := collapseRuns s2
  if s3.isEmpty then "_file" else ⟨s3⟩

/-- `XMLGenerator._create_tag_name`: directory separators become
underscores, then the path is sanitized as one tag name. -/
def createTagName (path : String) : String :=
  sanitizeTagName ⟨path.toList.map (fun c => if c = '/' ∨ c = '\\' then '_' else c)⟩

/-- `xml.sax.saxutils.escape`: `&`, `<`, `>` escaped. -/
def xmlEscape (s : String) : String :=
  ⟨(s.toList.map (fun c =>
    if c = '&' then "&amp;".toList
    else if c = '<' then "&lt;".toList
    else if c = '>' then "&gt;".toList
    else [c])).flatten⟩

def cdataHdrL : List Char := ['<', '!', '[', 'C', 'D', 'A', 'T', 'A', '[']

def cdataEndL : List Char := [']', ']', '>']

/-- The replacement of `content.replace("]]>", "]]]]><![CDATA[>")`. -/
def cdataReplL : List Char :=
  [']', ']', ']', ']', '>', '<', '!', '[', 'C', 'D', 'A', 'T', 'A', '[', '>']

/-- `XMLGenerator.CDATA_END_PLACEHOLDER = "__CDATA_END__"`. -/
def placeholderL : List Char :=
  ['_', '_', 'C', 'D', 'A', 'T', 'A', '_', 'E', 'N', 'D', '_', '_']

/-- `content.replace("__CDATA_END__", CDATA_END_PLACEHOLDER)`: Python's
left-to-right non-overlapping replace — with this pattern and
replacement it is the identity, which `replacePlaceholder_self` proves. -/
def replacePlaceholder (s : List Char) : List Char :=
  match s with
  | [] => []
  | c :: t =>
    if (c :: t).take 13 = placeholderL then
      placeholderL ++ replacePlaceholder ((c :: t).drop 13)
    else c :: replacePlaceholder t
termination_by s.length
decreasing_by
  · simp; omega
  · simp

/-- `content.replace("]]>", "]]]]><![CDATA[>")` (left-to-right,
non-overlapping). -/
def replaceCdataEnd (s : List Char) : List Char :=
  match s with
  | [] => []
  | c :: t =>
    if (c :: t).take 3 = cdataEndL then
      cdataReplL ++ replaceCdataEnd ((c :: t).drop 3)
    else c :: replaceCdataEnd t
termination_by s.length
decreasing_by
  · simp; omega
  · simp

/-- `XMLGenerator._wrap_content`: placeholder replace (a no-op), the
`]]>` split-and-rejoin, then the CDATA wrapping. -/
def wrapContent (content : String) : String :=
  ⟨cdataHdrL ++ replaceCdataEnd (replacePlaceholder content.toList) ++ cdataEndL⟩

/-- XML CDATA scanning: the body of a CDATA section is everything up to
the first `]]>`; returns the body and the remainder after that
terminator. -/
def parseBody : List Char → Option (List Char × List Char)
  | [] => none
  | c :: t =>
    if (c :: t).take 3 = cdataEndL then some ([], (c :: t).drop 3)
    else (parseBody t).map (fun p => (c :: p.1, p.2))

theorem parseBody_length : ∀ (x b r : List Char),
    parseBody x = some (b, r) → x.length = b.length + r.length + 3 := by
  intro x
  induction x with
  | nil => intro b r h; simp [parseBody] at h
  | cons c t ih =>
    intro b r h
    rw [parseBody] at h
    by_cases hc : (c :: t).take 3 = cdataEndL
    · rw [if_pos hc] at h
      obtain ⟨hb, hr⟩ := Prod.mk.injEq .. ▸ Option.some_inj.mp h
      have hlen : 2 ≤ t.length := by
        have h3 := congrArg List.length hc
        simp [cdataEndL] at h3
        omega
      subst hb; subst hr
      simp
      omega
    · rw [if_neg hc] at h
      cases hp : parseBody t with
      | none => rw [hp] at h; simp at h
      | some p =>
        rw [hp] at h
        simp at h
        obtain ⟨hb, hr⟩ := h
        have hlen := ih p.1 p.2 (by rw [hp])
        subst hb; subst hr
        simp at hlen ⊢
        omega

/-- Recognize and remove a `<![CDATA[` opener. -/
def dropHdr (x : List Char) : Option (List Char) :=
  if x.take 9 = cdataHdrL then some (x.drop 9) else none

theorem dropHdr_some : ∀ (x y : List Char), dropHdr x = some y →
    y = x.drop 9 ∧ 9 ≤ x.length := by
  intro x y h
  unfold dropHdr at h
  by_cases hc : x.take 9 = cdataHdrL
  · rw [if_pos hc] at h
    refine ⟨(Option.some_inj.mp h).symm, ?_⟩
    have := congrArg List.length hc
    simp [cdataHdrL] at this
    omega
  · rw [if_neg hc] at h
    simp at h

/-- Decode a string that is a concatenation of CDATA sections
(`<![CDATA[body]]>` repeated), as an XML parser would: the decoded text
is the concatenation of the section bodies.  `none` when the string is
not such a concatenation. -/
def parseCdata (x : List Char) : Option (List Char) :=
  if hx : x = [] then some []
  else
    match hd : dropHdr x with
    | none => none
    | some y =>
      match hp : parseBody y with
      | none => none
      | some p => (parseCdata p.2).map (p.1 ++ ·)
termination_by x.length
decreasing_by
  obtain ⟨hy, hlen⟩ := dropHdr_some x y hd
  have hb := parseBody_length y p.1 p.2 (by rw [hp])
  have : y.length = x.length - 9 := by rw [hy]; simp
  omega

/-- Replacing `"__CDATA_END__"` by `CDATA_END_PLACEHOLDER` (the same
string) is the identity: the first replace in `_wrap_content` has no
effect. -/
theorem replacePlaceholder_self (s : List Char) : replacePlaceholder s = s := by
  induction s using replacePlaceholder.induct with
  | case1 => rw [replacePlaceholder]
  | case2 c t hc ih =>
    rw [replacePlaceholder, if_pos hc, ih]
    conv_rhs => rw [← List.take_append_drop 13 (c :: t)]
    rw [hc]
  | case3 c t hc ih =>
    rw [replacePlaceholder, if_neg hc, ih]

theorem replaceCdataEnd_nil : replaceCdataEnd [] = [] := by
  rw [replaceCdataEnd]

theorem replaceCdataEnd_pos (c : Char) (t : List Char)
    (hc : (c :: t).take 3 = cdataEndL) :
    replaceCdataEnd (c :: t) =
      cdataReplL ++ replaceCdataEnd ((c :: t).drop 3) := by
  rw [replaceCdataEnd, if_pos hc]

theorem replaceCdataEnd_neg (c : Char) (t : List Char)
    (hc : ¬(c :: t).take 3 = cdataEndL) :
    replaceCdataEnd (c :: t) = c :: replaceCdataEnd t := by
  rw [replaceCdataEnd, if_neg hc]

/-- If a string does not begin with `]]>`, then neither does the
`]]>`-replaced image of its tail prefixed with its head — even with the
closing `]]>` appended: the replacement never manufactures a new `]]>`
at the seam. -/
theorem take3_replace_aux (c : Char) (t : List Char)
    (hc : ¬(c :: t).take 3 = cdataEndL) :
    ¬((c :: (replaceCdataEnd t ++ cdataEndL)).take 3 = cdataEndL) := by
  intro h
  rw [List.take_succ_cons] at h
  rw [show cdataEndL = ']' :: [']', '>'] from rfl] at h
  obtain ⟨hcc, h2⟩ := List.cons_eq_cons.mp h
  subst hcc
  cases t with
  | nil =>
    rw [replaceCdataEnd_nil] at h2
    simp [cdataEndL] at h2
  | cons d t2 =>
    by_cases h3 : (d :: t2).take 3 = cdataEndL
    · rw [replaceCdataEnd_pos d t2 h3] at h2
      simp [cdataReplL] at h2
    · rw [replaceCdataEnd_neg d t2 h3] at h2
      rw [List.cons_append, List.take_succ_cons] at h2
      obtain ⟨hd, h1⟩ := List.cons_eq_cons.mp h2
      subst hd
      cases t2 with
      | nil =>
        rw [replaceCdataEnd_nil] at h1
        simp [cdataEndL] at h1
      | cons e t3 =>
        by_cases h4 : (e :: t3).take 3 = cdataEndL
        · rw [replaceCdataEnd_pos e t3 h4] at h1
          simp [cdataReplL] at h1
        · rw [replaceCdataEnd_neg e t3 h4] at h1
          rw [List.cons_append, List.take_succ_cons] at h1
          obtain ⟨he, -⟩ := List.cons_eq_cons.mp h1
          subst he
          exact hc (by simp [cdataEndL])

theorem parseBody_cons_ne (c : Char) (x : List Char)
    (h : ¬((c :: x).take 3 = cdataEndL)) :
    parseBody (c :: x) = (parseBody x).map (fun p => (c :: p.1, p.2)) := by
  rw [parseBody, if_neg h]

theorem parseBody_repl (X : List Char) :
    parseBody (cdataReplL ++ X) =
      some ([']', ']'],
        ['<', '!', '[', 'C', 'D', 'A', 'T', 'A', '['] ++ ('>' :: X)) := by
  simp [cdataReplL, parseBody, cdataEndL]

theorem parseCdata_sections (z : List Char) :
    parseCdata (cdataHdrL ++ z) =
      (parseBody z).bind (fun p => (parseCdata p.2).map (p.1 ++ ·)) := by
  rw [parseCdata]
  have hne : ¬(cdataHdrL ++ z = []) := by simp [cdataHdrL]
  rw [dif_neg hne]
  have hd : dropHdr (cdataHdrL ++ z) = some z := by
    unfold dropHdr
    rw [if_pos (by simp [cdataHdrL])]
    simp [cdataHdrL]
  split
  · rename_i heq
    rw [hd] at heq
    simp at heq
  · rename_i y heq
    rw [hd] at heq
    cases Option.some_inj.mp heq
    split
    · rename_i hp
      rw [hp]
      rfl
    · rename_i p hp
      rw [hp]
      rfl

theorem decode_chain (s : List Char) :
    (parseBody (replaceCdataEnd s ++ cdataEndL)).bind
      (fun p => (parseCdata p.2).map (p.1 ++ ·)) = some s := by
  induction s using replaceCdataEnd.induct with
  | case1 =>
    rw [replaceCdataEnd_nil]
    have h1 : parseBody ([] ++ cdataEndL) = some ([], []) := by decide
    rw [h1]
    have h2 : parseCdata [] = some [] := by rw [parseCdata]; simp
    simp [h2]
  | case2 c t hc ih =>
    have hs : c :: t = cdataEndL ++ (c :: t).drop 3 := by
      conv_lhs => rw [← List.take_append_drop 3 (c :: t)]
      rw [hc]
    rw [replaceCdataEnd_pos c t hc, List.append_assoc, parseBody_repl]
    rw [show (['<', '!', '[', 'C', 'D', 'A', 'T', 'A', '['] : List Char) =
      cdataHdrL from rfl]
    simp only [Option.some_bind]
    rw [parseCdata_sections]
    have h1 : ¬(('>' :: (replaceCdataEnd ((c :: t).drop 3) ++ cdataEndL)).take 3
        = cdataEndL) := by
      simp [cdataEndL]
    rw [parseBody_cons_ne _ _ h1]
    cases hX : parseBody (replaceCdataEnd ((c :: t).drop 3) ++ cdataEndL) with
    | none => rw [hX] at ih; simp at ih
    | some p =>
      rw [hX] at ih
      simp only [Option.some_bind] at ih
      cases hz : parseCdata p.2 with
      | none => rw [hz] at ih; simp at ih
      | some z =>
        rw [hz] at ih
        simp only [Option.map_some'] at ih
        have ih' := Option.some_inj.mp ih
        simp only [Option.map_some', Option.some_bind]
        rw [hz]
        simp only [Option.map_some', Option.some_inj]
        simp only [List.cons_append, List.nil_append, List.append_assoc]
        rw [ih']
        conv_rhs => rw [hs]
        rfl
  | case3 c t hc ih =>
    rw [replaceCdataEnd_neg c t hc, List.cons_append,
      parseBody_cons_ne c _ (take3_replace_aux c t hc)]
    cases hX : parseBody (replaceCdataEnd t ++ cdataEndL) with
    | none => rw [hX] at ih; simp at ih
    | some p =>
      rw [hX] at ih
      simp only [Option.some_bind] at ih
      cases hz : parseCdata p.2 with
      | none => rw [hz] at ih; simp at ih
      | some z =>
        rw [hz] at ih
        simp only [Option.map_some'] at ih
        have ih' := Option.some_inj.mp ih
        simp only [Option.map_some', Option.some_bind]
        rw [hz]
        simp only [Option.map_some', Option.some_inj]
        simp only [List.cons_append]
        rw [ih']

/-- Round trip: the wrapped content, read back as a sequence of CDATA
sections the way an XML parser reads them, yields exactly the original
text — every `]]>` in the content was neutralized by the
split-and-rejoin, so none of them can terminate the CDATA block
prematurely. -/
theorem parseCdata_wrapContent (s : String) :
    parseCdata (wrapContent s).toList = some s.toList := by
  unfold wrapContent
  rw [replacePlaceholder_self]
  show parseCdata (cdataHdrL ++ replaceCdataEnd s.toList ++ cdataEndL) = _
  rw [List.append_assoc, parseCdata_sections, decode_chain]

/-- A value of the configuration dictionary. -/
inductive ConfigVal where
  | int (i : Int)
  | content (c : ContentRules)
  | structRules (s : StructureRules)

/-- Exceptions relevant to the embedded code paths. -/
inductive PyErr where
  | keyError
  | typeError
  | attributeError
  | valueError
deriving Repr, DecidableEq

/-- Key lookup on the validated configuration dictionary built by
`ConfigManager._load_config` (both the validated and the fallback
defaults carry exactly the keys `max_file_size_kb`, `content_exclude`
and `structure_exclude`); any other key raises `KeyError`. -/
def configGet (cfg : LoadedConfig) : String → Option ConfigVal
  | "max_file_size_kb" => some (.int cfg.maxFileSizeKb)
  | "content_exclude" => some (.content cfg.contentExclude)
  | "structure_exclude" => some (.structRules cfg.structureExclude)
  | _ => none

/-- The `should_include` closure of `XMLGenerator._generate_structure`:
it reads `self.config['exclude_structure']` — a key the configuration
manager never produces — so the lookup raises `KeyError` before any
filter logic runs. -/
def shouldIncludeE (cfg : LoadedConfig) (item : FSEntry) :
    Except PyErr Bool :=
  match configGet cfg "exclude_structure" with
  | some (.structRules r) =>
    match item with
    | .dir n _ _ => .ok (decide (n ∉ r.directories))
    | .file n _ _ _ _ =>
      .ok (decide (n ∉ r.files ∧ pySuffix n ∉ r.extensions))
  | some _ => .error .attributeError
  | none => .error .keyError

/-- The list comprehension
`[item for item in path.iterdir() if should_include(item)]`: items are
tested in order and the first exception aborts the whole comprehension. -/
def filterItemsE (cfg : LoadedConfig) : List FSEntry → Except PyErr (List FSEntry)
  | [] => .ok []
  | i :: rest =>
    match shouldIncludeE cfg i with
    | .error e => .error e
    | .ok b =>
      match filterItemsE cfg rest with
      | .error e => .error e
      | .ok r => .ok (if b then i :: r else r)

theorem filterItemsE_sumSizes (cfg : LoadedConfig) :
    ∀ (l kept : List FSEntry), filterItemsE cfg l = .ok kept →
      sumSizes kept ≤ sumSizes l := by
  intro l
  induction l with
  | nil => intro kept h; simp [filterItemsE] at h; simp [← h]
  | cons i rest ih =>
    intro kept h
    rw [filterItemsE] at h
    cases hb : shouldIncludeE cfg i with
    | error e => rw [hb] at h; simp at h
    | ok b =>
      rw [hb] at h
      cases hr : filterItemsE cfg rest with
      | error e => rw [hr] at h; simp at h
      | ok r =>
        rw [hr] at h
        simp at h
        have hrec := ih r hr
        cases b with
        | true =>
          rw [← h]
          simp [sumSizes]
          omega
        | false =>
          rw [← h]
          simp [sumSizes]
          omega

/-- `"│   " * level` followed by the connector and name, as
`add_to_structure` formats one item line. -/
def lineFor (item : FSEntry) (level : Nat) (isLast : Bool) : String :=
  ⟨(List.replicate level "│   ".toList).flatten⟩ ++
    (if isLast then "└── " else "├── ") ++ item.ename ++
    (if item.isDirE then "/" else "")

mutual
/-- `add_to_structure` of `XMLGenerator._generate_structure`: one call
appends (a) the root line when `level = 0` and (b) one line per kept,
sorted item, recursing into subdirectories.  Its `try` wraps the whole
body, so a listing failure, or the `KeyError` the filter raises, makes
the call contribute the lines accumulated so far — none, since both
happen before any line is appended.  A file root contributes nothing
(`iterdir()` raises `NotADirectoryError`). -/
def addToStructure (cfg : LoadedConfig) (fs : FSEntry) (level : Nat) :
    List String :=
  match fs with
  | .file _ _ _ _ _ => []
  | .dir name listErr children =>
    if listErr then []
    else
      match hkept : filterItemsE cfg children with
      | .error _ => []
      | .ok kept =>
        (if level = 0 then [name ++ "/"] else []) ++
          renderItems cfg (stableSort itemLe kept) level
termination_by (fsSize fs, 0)
decreasing_by
  simp_wf
  have h1 := filterItemsE_sumSizes cfg _ kept hkept
  have h2 := sumSizes_stableSort kept
  simp [fsSize]
  omega

/-- The item loop of `add_to_structure`, with the is-last flag resolved
by position. -/
def renderItems (cfg : LoadedConfig) (items : List FSEntry) (level : Nat) :
    List String :=
  match items with
  | [] => []
  | [item] =>
    lineFor item level true ::
      (if item.isDirE then addToStructure cfg item (level + 1) else [])
  | item :: rest =>
    lineFor item level false ::
      ((if item.isDirE then addToStructure cfg item (level + 1) else []) ++
        renderItems cfg rest level)
termination_by (sumSizes items, 1)
decreasing_by
  all_goals rw [Prod.lex_iff]
  all_goals have hfs := fsSize_pos item
  all_goals simp [sumSizes]
  all_goals omega
end

/-- `XMLGenerator._generate_structure`: run `add_to_structure` on the
root and return the collected lines. -/
def generateStructure (cfg : LoadedConfig) (rootFs : FSEntry) : List String :=
  addToStructure cfg rootFs 0

/-- `XMLGenerator.STRUCTURE_EXPLANATION.strip()`. -/
def structureExplanationText : String :=
  "This section represents the directory structure of the project.\n    It includes all UTF-8 encoded files that were not excluded based on the\n    configuration file, which allows excluding files by name, extension,\n    or size, and directories by name."

/-- `XMLGenerator._generate_project_context` (the timestamp
`datetime.now().strftime(…)` is a parameter of the model). -/
def projectContextLines (rootName ts : String) : List String :=
  ["<project_context>",
   "    <project_name>" ++ xmlEscape rootName ++ "</project_name>",
   "    <generation_timestamp>" ++ ts ++ "</generation_timestamp>",
   "</project_context>"]

/-- The three output entries `generate_xml` appends per content record:
opening tag from the sanitized path, CDATA-wrapped content, closing
tag. -/
def recLines (r : ContentRecord) : List String :=
  ["<" ++ createTagName r.path ++ ">", wrapContent r.content,
   "</" ++ createTagName r.path ++ ">"]

/-- The `output` list `generate_xml` builds, in order: declaration,
root element, project context, structure explanation, the tree outline
(inserted raw, "without XML sanitization"), then one tag per content
record in the order of `files`, then the closing root tag. -/
def buildLines (cfg : LoadedConfig) (rootName ts : String) (rootFs : FSEntry)
    (files : List ContentRecord) : List String :=
  (["<?xml version=\"1.0\" encoding=\"UTF-8\"?>", "<code>"] ++
    projectContextLines rootName ts ++
    ["<structure_explanation>", "    " ++ structureExplanationText,
     "</structure_explanation>", "<structure>"] ++
    generateStructure cfg rootFs ++
    ["</structure>"]) ++
  (files.map recLines).flatten ++
  ["</code>"]

/-- The `Char` production of XML 1.0
(`#x9 | #xA | #xD | [#x20-#xD7FF] | [#xE000-#xFFFD] |
[#x10000-#x10FFFF]`): exactly the characters a well-formed document may
contain anywhere, CDATA included; `ET.fromstring` rejects any document
holding a character outside it.  (Strictly wider than the code's own
`XML_VALID_CHARS` class, which `generate_xml` never consults.) -/
def xml10ValidChar (c : Char) : Bool :=
  decide (c.toNat = 0x9 ∨ c.toNat = 0xA ∨ c.toNat = 0xD ∨
    (0x20 ≤ c.toNat ∧ c.toNat ≤ 0xD7FF) ∨
    (0xE000 ≤ c.toNat ∧ c.toNat ≤ 0xFFFD) ∨
    (0x10000 ≤ c.toNat ∧ c.toNat ≤ 0x10FFFF))

/-- All characters of the joined document lie in the XML 1.0 `Char`
production — the character-set component of the final `ET.fromstring`
well-formedness self-check, and a necessary condition for it to
pass. -/
def xml10CharsOk (s : String) : Bool := s.toList.all xml10ValidChar

/-- `"\n".join(output)`. -/
def joinLines : List String → String
  | [] => ""
  | [l] => l
  | l :: rest => l ++ "\n" ++ joinLines rest

theorem mem_toList_joinLines : ∀ (lines : List String) (l : String),
    l ∈ lines → ∀ c : Char, c ∈ l.toList → c ∈ (joinLines lines).toList := by
  intro lines
  induction lines with
  | nil => intro l h; cases h
  | cons a t ih =>
    intro l hl c hc
    cases t with
    | nil =>
      rcases List.mem_cons.mp hl with h | h
      · subst h; simpa [joinLines] using hc
      · cases h
    | cons b t2 =>
      rcases List.mem_cons.mp hl with h | h
      · subst h
        show c ∈ (l ++ "\n" ++ joinLines (b :: t2)).toList
        simp [String.toList] at hc ⊢
        exact Or.inl hc
      · have hrec := ih l h c hc
        show c ∈ (a ++ "\n" ++ joinLines (b :: t2)).toList
        simp [String.toList] at hrec ⊢
        exact Or.inr (Or.inr hrec)

/-- The `files` argument `generate_xml` iterates over.  `main` passes
the whole `ScanResult`; the dataclass defines no iteration, so
`for file_info in files:` raises `TypeError` for it. -/
inductive FilesArg where
  | ofScanResult (r : ScanResult)
  | ofRecords (l : List ContentRecord)

def iterFilesArg : FilesArg → Except PyErr (List ContentRecord)
  | .ofScanResult _ => .error .typeError
  | .ofRecords l => .ok l

/-- `XMLGenerator.generate_xml`.  The final `ET.fromstring` validation
is modeled by its character-set component: a document holding a
character outside the XML 1.0 `Char` production cannot parse, so the
method raises `ValueError` for it; the `ok` branch abstracts the
remaining well-formedness conditions (tag structure etc.).  A
`TypeError` from iterating `files` escapes the per-file `try` and is
re-raised by the outer handler. -/
def generateXml (cfg : LoadedConfig) (rootName ts : String) (rootFs : FSEntry)
    (filesArg : FilesArg) : Except PyErr String :=
  match iterFilesArg filesArg with
  | .error e => .error e
  | .ok files =>
    let doc := joinLines (buildLines cfg rootName ts rootFs files)
    if xml10CharsOk doc then .ok doc else .error .valueError

/-- `main` of `main.py`: validate the path (must exist and be a
directory), scan, generate, save.  Returns the process exit code and
the document written to the output file, if any.  Any exception —
including the `TypeError` from passing the `ScanResult` object as
`files` — is caught and turned into `sys.exit(1)` with nothing
written. -/
def mainRun (cfg : LoadedConfig) (ts : String) (root : Option FSEntry) :
    Nat × Option String :=
  match root with
  | none => (1, none)
  | some (.file _ _ _ _ _) => (1, none)
  | some (.dir name listErr children) =>
    match scanDirectory cfg (some (.dir name listErr children)) with
    | .error _ => (1, none)
    | .ok res =>
      match generateXml cfg name ts (.dir name listErr children)
          (.ofScanResult res) with
      | .error _ => (1, none)
      | .ok doc => (0, some doc)

/-- A failing content read (`open`/`read` raising inside the per-file
`try`) leaves the state untouched: no record, no counter change. -/
theorem fileContentStep_readErr (cfg : LoadedConfig) (fn : String)
    (sizeBytes : Nat) (utf8 : Bool) (content : String) (depth : Nat)
    (dirRel : String) (st : ScanState) :
    fileContentStep cfg fn sizeBytes utf8 content true depth dirRel st = st := by
  unfold fileContentStep
  split
  · split
    · split
      · simp
      · rfl
    · rfl
  · rfl

/-- The filter of the outline builder always raises `KeyError`: the
configuration dictionary has no key `exclude_structure`. -/
theorem shouldIncludeE_keyError (cfg : LoadedConfig) (item : FSEntry) :
    shouldIncludeE cfg item = .error .keyError := by
  unfold shouldIncludeE
  rw [show configGet cfg "exclude_structure" = none from rfl]

theorem filterItemsE_cons_keyError (cfg : LoadedConfig) (i : FSEntry)
    (rest : List FSEntry) :
    filterItemsE cfg (i :: rest) = .error .keyError := by
  rw [filterItemsE, shouldIncludeE_keyError]

/-- An entryless directory root yields just the root line: with no item
to test, the filter comprehension raises nothing. -/
theorem addToStructure_emptyDir (cfg : LoadedConfig) (name : String) :
    addToStructure cfg (.dir name false []) 0 = [name ++ "/"] := by
  rw [addToStructure]
  simp [filterItemsE, stableSort, renderItems]

/-- A root directory with at least one entry yields no outline lines at
all: the filter raises `KeyError` on its first item (or `iterdir`
itself fails), the exception is caught, and the function returns with
`structure_lines` still empty — before even the root line is added. -/
theorem addToStructure_nonempty (cfg : LoadedConfig) (name : String)
    (listErr : Bool) (c : FSEntry) (cs : List FSEntry) (level : Nat) :
    addToStructure cfg (.dir name listErr (c :: cs)) level = [] := by
  rw [addToStructure]
  cases listErr with
  | true => simp
  | false =>
    simp only [Bool.false_eq_true, if_false]
    split
    · rfl
    · rename_i kept hkept
      rw [filterItemsE_cons_keyError] at hkept
      simp at hkept

/-! ### Claim theorems

Fixtures for the concrete counterexamples and witnesses. -/

/-- A configuration with the library defaults (empty exclusion lists,
`max_depth = 10`, `max_files = 100`, `max_file_size_kb = 1024`). -/
def cfgDefault : LoadedConfig :=
  ⟨1024, ⟨[], [], 10, 100⟩, ⟨[], [], [], 10, 100⟩⟩

/-- C7.  For every directory encountered during the walk whose name is
in `structure_exclude.directories`, processing the sibling list with it
is identical to processing the sibling list without it: no structure
node, no ContentRecord anywhere beneath it, no counter change —
regardless of the content rules, because the traversal happens once and
is pruned before recursing (`_process_directory` line 96).  (The scan
root itself is never tested against this list.) -/
theorem excluded_directory_blocks_subtree (cfg : LoadedConfig) (dn : String)
    (dListErr : Bool) (dChildren rest : List FSEntry) (depth : Nat)
    (dirRel : String) (st : ScanState)
    (h : dn ∈ cfg.structureExclude.directories) :
    processItems cfg (.dir dn dListErr dChildren :: rest) depth dirRel st =
      processItems cfg rest depth dirRel st :=
  processItems_dir_excluded cfg dn dListErr dChildren rest depth dirRel st h

/-- Witness for C7 at a concrete input: with `.git` excluded, scanning
a sibling list holding a `.git` directory (with a file `HEAD` inside)
equals scanning without it. -/
theorem excluded_directory_blocks_subtree_witness :
    processItems ⟨1024, ⟨[], [], 10, 100⟩, ⟨[], [".git"], [], 10, 100⟩⟩
        [.dir ".git" false [.file "HEAD" 5 true "ref" false]] 0 "r" initState =
      processItems ⟨1024, ⟨[], [], 10, 100⟩, ⟨[], [".git"], [], 10, 100⟩⟩
        [] 0 "r" initState :=
  excluded_directory_blocks_subtree _ ".git" false
    [.file "HEAD" 5 true "ref" false] [] 0 "r" initState (by decide)

/-- C9.  `main` passes the whole `ScanResult` object as the `files`
argument of `generate_xml`; `ScanResult` defines no iteration, so the
`for file_info in files:` loop raises `TypeError`, the outer handlers
re-raise, `main` catches it, and the process exits with code 1 before
writing any output — for every existing project directory. -/
theorem main_scanresult_not_iterable :
    (∀ r : ScanResult, iterFilesArg (.ofScanResult r) = .error .typeError) ∧
    (∀ (cfg : LoadedConfig) (ts name : String) (listErr : Bool)
        (children : List FSEntry),
      mainRun cfg ts (some (.dir name listErr children)) = (1, none)) :=
  ⟨fun _ => rfl, fun _ _ _ _ _ => rfl⟩

/-- Configuration with `structure_exclude.max_files = 0`. -/
def cfgCapZero : LoadedConfig := ⟨1024, ⟨[], [], 10, 100⟩, ⟨[], [], [], 10, 0⟩⟩

/-- Counterexample to C6 as stated: with `max_files = 0` no directory
should contribute any structure entry, yet scanning a root with one
subdirectory `a` appends `a`'s node — the counter is never consulted
for directories, so the directory contributes one entry, exceeding the
cap of zero. -/
theorem dir_append_ignores_cap_counterexample :
    (scanDirectory cfgCapZero (some (.dir "r" false [.dir "a" false []]))).toOption.map
        (fun r => r.struct.map (fun nd => nd.children.map (·.name))) =
      some (some ["a"]) := by
  simp [scanDirectory, cfgCapZero, processDirectory, processItems, initState,
    stableSort, stableInsert]
  exact ⟨_, rfl, _, rfl, rfl⟩

/-- C6 amended.  A child subdirectory's node is appended (and the
structure counter incremented) whenever the recursion yields a node —
the per-depth counter is not consulted for directories; the
`structure_exclude.max_files` cap is enforced only when appending file
nodes.  Hence a directory can contribute more structure entries than
`maxEntriesPerDirectory` through subdirectories. -/
theorem dir_node_appended_without_cap_check (cfg : LoadedConfig)
    (dn : String) (dChildren rest : List FSEntry) (depth : Nat)
    (dirRel : String) (st : ScanState)
    (hmem : dn ∉ cfg.structureExclude.directories)
    (hdep : ¬((depth + 1 : Nat) : Int) > cfg.structureExclude.maxDepth) :
    (processItems cfg (.dir dn false dChildren :: rest) depth dirRel st).1 =
      (⟨dn, if dirRel = "" then dn else dirRel ++ "/" ++ dn, true,
        (processItems cfg (stableSort itemLe dChildren) (depth + 1)
          (if dirRel = "" then dn else dirRel ++ "/" ++ dn) st).1, depth + 1⟩ :
        DirectoryStructure) ::
      (processItems cfg rest depth dirRel
        { (processItems cfg (stableSort itemLe dChildren) (depth + 1)
            (if dirRel = "" then dn else dirRel ++ "/" ++ dn) st).2 with
          structCount := bumpAt
            (processItems cfg (stableSort itemLe dChildren) (depth + 1)
              (if dirRel = "" then dn else dirRel ++ "/" ++ dn) st).2.structCount
            depth }).1 ∧
    (∀ (fn : String) (st' : ScanState),
      ¬((st'.structCount depth : Int) < cfg.structureExclude.maxFiles) →
      (fileStructRes cfg fn depth dirRel st').1 = none) := by
  constructor
  · have hpd := processDirectory_go cfg dn dChildren (depth + 1) dirRel st hdep
    rw [processItems_dir_some cfg dn false dChildren rest depth dirRel st _ _
      hmem hpd]
  · intro fn st' hcap
    unfold fileStructRes
    by_cases hf : pySuffix fn ∉ cfg.structureExclude.extensions ∧
        fn ∉ cfg.structureExclude.files
    · simp [hf, hcap]
    · simp [hf]

/-- Witness for C6 amended at a concrete input: the cap is zero, yet
the subdirectory's node is appended; and a file is refused under the
same exhausted cap. -/
theorem dir_node_appended_without_cap_check_witness :
    ((processItems cfgCapZero [.dir "a" false []] 0 "r" initState).1 =
      (⟨"a", if "r" = "" then "a" else "r" ++ "/" ++ "a", true,
        (processItems cfgCapZero (stableSort itemLe []) 1
          (if "r" = "" then "a" else "r" ++ "/" ++ "a") initState).1, 1⟩ :
        DirectoryStructure) ::
      (processItems cfgCapZero []  0 "r"
        { (processItems cfgCapZero (stableSort itemLe []) 1
            (if "r" = "" then "a" else "r" ++ "/" ++ "a") initState).2 with
          structCount := bumpAt
            (processItems cfgCapZero (stableSort itemLe []) 1
              (if "r" = "" then "a" else "r" ++ "/" ++ "a")
              initState).2.structCount 0 }).1 ∧
    (∀ (fn : String) (st' : ScanState),
      ¬((st'.structCount 0 : Int) < cfgCapZero.structureExclude.maxFiles) →
      (fileStructRes cfgCapZero fn 0 "r" st').1 = none)) :=
  dir_node_appended_without_cap_check cfgCapZero "a" [] [] 0 "r" initState
    (by decide) (by decide)

/-- Counterexample to C8 as stated: a directory whose listing raises an
I/O error still yields a structure node (with no children) — the claim
says an item hit by an I/O error produces no node. -/
theorem listing_error_still_yields_node_counterexample :
    (scanDirectory cfgDefault
        (some (.dir "r" false
          [.dir "d" true [.file "x.txt" 1 true "t" false]]))).toOption.map
        (fun r => r.struct.map (fun nd =>
          nd.children.map (fun c => (c.name, c.is_dir, c.children.length)))) =
      some (some [("d", true, 0)]) := by
  simp [scanDirectory, cfgDefault, processDirectory, processItems, initState,
    stableSort, stableInsert]
  exact ⟨_, rfl, _, rfl, rfl⟩

/-- C8 amended.  `scan_directory` raises the path-not-found error iff
the root does not exist, and otherwise always returns a full
`ScanResult`; an I/O error reading one file is caught per file and
yields no record and no content-counter change (the file may still get
a structure node); an I/O error listing a directory is caught around
that directory's loop and yields the directory's node with no children
and an unchanged state; after any single item the scan continues with
the remaining siblings. -/
theorem scan_error_handling :
    (∀ cfg : LoadedConfig, scanDirectory cfg none =
      .error "Path does not exist") ∧
    (∀ (cfg : LoadedConfig) (fs : FSEntry),
      (scanDirectory cfg (some fs)).isOk = true) ∧
    (∀ (cfg : LoadedConfig) (fn : String) (sz : Nat) (u : Bool) (c : String)
        (d : Nat) (rel : String) (st : ScanState),
      (processItems cfg [.file fn sz u c true] d rel st).2.filesContent =
          st.filesContent ∧
        (processItems cfg [.file fn sz u c true] d rel st).2.contentCount =
          st.contentCount) ∧
    (∀ (cfg : LoadedConfig) (x : FSEntry) (rest : List FSEntry) (d : Nat)
        (rel : String) (st : ScanState),
      processItems cfg (x :: rest) d rel st =
        ((processItems cfg [x] d rel st).1 ++
          (processItems cfg rest d rel
            (processItems cfg [x] d rel st).2).1,
         (processItems cfg rest d rel (processItems cfg [x] d rel st).2).2)) ∧
    (∀ (cfg : LoadedConfig) (name : String) (cs : List FSEntry) (depth : Nat)
        (parentRel : String) (st : ScanState),
      ¬((depth : Int) > cfg.structureExclude.maxDepth) →
      processDirectory cfg name true cs depth parentRel st =
        (some ⟨name, if parentRel = "" then name else parentRel ++ "/" ++ name,
          true, [], depth⟩, st)) := by
  refine ⟨fun _ => rfl, ?_, ?_, ?_, ?_⟩
  · intro cfg fs
    cases fs <;> rfl
  · intro cfg fn sz u c d rel st
    rw [processItems_file, processItems_nil, fileContentStep_readErr]
    have h := fileStructRes_content_side cfg fn d rel st
    exact ⟨by simp [h.2], by simp [h.1]⟩
  · intro cfg x rest d rel st
    have h := processItems_append cfg [x] rest d rel st
    simpa using h
  · intro cfg name cs depth parentRel st h
    exact processDirectory_listErr cfg name cs depth parentRel st h

/-- Witness for C8 amended at concrete inputs: the missing root errors,
an existing root scans, a read-erroring file adds no record, and an
unlistable directory yields an empty node. -/
theorem scan_error_handling_witness :
    scanDirectory cfgDefault none = .error "Path does not exist" ∧
    (scanDirectory cfgDefault (some (.dir "r" false []))).isOk = true ∧
    (processItems cfgDefault [.file "f" 1 true "c" true] 0 "r"
        initState).2.filesContent = initState.filesContent ∧
    processDirectory cfgDefault "d" true [] 1 "r" initState =
      (some ⟨"d", if "r" = "" then "d" else "r" ++ "/" ++ "d", true, [], 1⟩,
        initState) :=
  ⟨scan_error_handling.1 cfgDefault,
   scan_error_handling.2.1 cfgDefault (.dir "r" false []),
   (scan_error_handling.2.2.1 cfgDefault "f" 1 true "c" 0 "r" initState).1,
   scan_error_handling.2.2.2.2 cfgDefault "d" [] 1 "r" initState (by decide)⟩

/-- Configuration with `content_exclude.max_files = 1`. -/
def cfgContentOne : LoadedConfig := ⟨1024, ⟨[], [], 10, 1⟩, ⟨[], [], [], 10, 100⟩⟩

/-- Two sibling directories, each with one small UTF-8 file. -/
def fsTwoSiblings : FSEntry :=
  .dir "r" false
    [.dir "a" false [.file "f.txt" 5 true "A" false],
     .dir "b" false [.file "g.txt" 5 true "B" false]]

theorem sortTwoSiblings :
    stableSort itemLe
      [FSEntry.dir "a" false [.file "f.txt" 5 true "A" false],
       FSEntry.dir "b" false [.file "g.txt" 5 true "B" false]] =
      [FSEntry.dir "a" false [.file "f.txt" 5 true "A" false],
       FSEntry.dir "b" false [.file "g.txt" 5 true "B" false]] := rfl

/-- Counterexample to C2 as stated: with a per-directory cap of one
content record, each of the sibling directories `a` and `b` holds a
single extractable file, so under per-directory counters both records
would be extracted; the code extracts only `a`'s — the depth-1 counter
filled by `a` suppresses `b`'s file, so sibling directories share the
counter. -/
theorem content_counter_shared_counterexample :
    (scanDirectory cfgContentOne (some fsTwoSiblings)).toOption.map
        (fun r => r.files_content.map (·.path)) = some ["r/a/f.txt"] := by
  simp [scanDirectory, fsTwoSiblings, cfgContentOne, processDirectory,
    processItems, initState, shouldIncludeContent, pySuffix, bumpAt,
    sortTwoSiblings, fileStructRes, fileContentStep,
    show stableSort itemLe [FSEntry.file "f.txt" 5 true "A" false] =
      [FSEntry.file "f.txt" 5 true "A" false] from rfl,
    show stableSort itemLe [FSEntry.file "g.txt" 5 true "B" false] =
      [FSEntry.file "g.txt" 5 true "B" false] from rfl]
  exact ⟨_, rfl, rfl⟩

/-- C2 amended.  The two per-depth counters are fields of the processor
shared by the whole scan, not fresh per directory: one state threads
through all sibling subtrees, the content counter at each depth grows
by exactly the records appended anywhere at that depth, and
`content_exclude.max_files` therefore bounds the TOTAL number of
records per depth across all directories of the scan — one directory's
consumption suppresses extraction in sibling directories at the same
depth. -/
theorem content_counter_global_per_depth :
    (∀ (cfg : LoadedConfig) (fs : FSEntry) (r : ScanResult) (d : Nat),
      scanDirectory cfg (some fs) = .ok r →
      recsAt d r.files_content ≤ cfg.contentExclude.maxFiles.toNat) ∧
    (∀ (cfg : LoadedConfig) (items : List FSEntry) (depth d : Nat)
        (dirRel : String) (st : ScanState),
      (processItems cfg items depth dirRel st).2.filesContent =
          st.filesContent ++
            ((processItems cfg items depth dirRel st).2.filesContent.drop
              st.filesContent.length) ∧
        (processItems cfg items depth dirRel st).2.contentCount d =
          st.contentCount d +
            recsAt d ((processItems cfg items depth dirRel st).2.filesContent.drop
              st.filesContent.length)) := by
  constructor
  · intro cfg fs r d h
    exact scan_records_bound cfg fs r d h
  · intro cfg items depth d dirRel st
    obtain ⟨⟨Δ, hΔ, hc⟩, -⟩ := contentAcct_processItems cfg items depth dirRel st
    have hdrop : (processItems cfg items depth dirRel st).2.filesContent.drop
        st.filesContent.length = Δ := by
      rw [hΔ, List.drop_left]
    rw [hdrop]
    exact ⟨hΔ, hc d⟩

/-- Witness for C2 amended at the concrete two-sibling scan. -/
theorem content_counter_global_per_depth_witness :
    recsAt 1
        (ScanResult.mk
          (processDirectory cfgContentOne "r" false
            [.dir "a" false [.file "f.txt" 5 true "A" false],
             .dir "b" false [.file "g.txt" 5 true "B" false]] 0 "" initState).1
          (processDirectory cfgContentOne "r" false
            [.dir "a" false [.file "f.txt" 5 true "A" false],
             .dir "b" false [.file "g.txt" 5 true "B" false]] 0 ""
            initState).2.filesContent).files_content ≤
      cfgContentOne.contentExclude.maxFiles.toNat :=
  content_counter_global_per_depth.1 cfgContentOne fsTwoSiblings _ 1 rfl

/-- C1.  For every file visited during the scan of a directory's item
list (the file being the next item after any prefix `pre` of siblings,
its read succeeding), a ContentRecord is appended if and only if
`specContentDecision` holds — depth within `content_exclude.max_depth`,
size within the configured maximum, extension and name not excluded,
UTF-8-decodable, and the shared content counter for the depth below
`content_exclude.max_files` at visit time — and the counter is
incremented exactly on success.  The last conjunct shows the decision
is independent of the structure decision: replacing the structure rule
set by any other leaves the appended records unchanged. -/
theorem content_decision_matches_spec (cfg : LoadedConfig)
    (pre : List FSEntry) (n : String) (sz : Nat) (u : Bool) (c : String)
    (d : Nat) (rel : String) (st : ScanState) :
    ((processItems cfg (pre ++ [.file n sz u c false]) d rel st).2.filesContent =
        (processItems cfg pre d rel st).2.filesContent ++
          (if specContentDecision cfg d
              ((processItems cfg pre d rel st).2.contentCount d) n sz u then
            [⟨rel ++ "/" ++ n, c, d⟩] else []) ∧
      (processItems cfg (pre ++ [.file n sz u c false]) d rel st).2.contentCount d =
        (processItems cfg pre d rel st).2.contentCount d +
          (if specContentDecision cfg d
              ((processItems cfg pre d rel st).2.contentCount d) n sz u then 1
            else 0)) ∧
    (∀ sr : StructureRules,
      (processItems { cfg with structureExclude := sr }
          [.file n sz u c false] d rel
          (processItems cfg pre d rel st).2).2.filesContent =
        (processItems cfg [.file n sz u c false] d rel
          (processItems cfg pre d rel st).2).2.filesContent) := by
  have key : ∀ (cfg' : LoadedConfig) (s1 : ScanState),
      cfg'.contentExclude = cfg.contentExclude →
      cfg'.maxFileSizeKb = cfg.maxFileSizeKb →
      (processItems cfg' [.file n sz u c false] d rel s1).2.filesContent =
          s1.filesContent ++
            (if specContentDecision cfg d (s1.contentCount d) n sz u then
              [⟨rel ++ "/" ++ n, c, d⟩] else []) ∧
        (processItems cfg' [.file n sz u c false] d rel s1).2.contentCount d =
          s1.contentCount d +
            (if specContentDecision cfg d (s1.contentCount d) n sz u then 1
              else 0) := by
    intro cfg' s1 hce hkb
    rw [processItems_file, processItems_nil]
    have hside := fileStructRes_content_side cfg' n d rel s1
    have hspec := fileContentStep_spec cfg' n sz u c d rel
      (fileStructRes cfg' n d rel s1).2
    have hsame : specContentDecision cfg' d
        ((fileStructRes cfg' n d rel s1).2.contentCount d) n sz u ↔
        specContentDecision cfg d (s1.contentCount d) n sz u := by
      unfold specContentDecision
      rw [hside.1, hce, hkb]
    by_cases hdec : specContentDecision cfg d (s1.contentCount d) n sz u
    · rw [hspec, if_pos (hsame.mpr hdec), if_pos hdec, if_pos hdec]
      constructor
      · simp [hside.2]
      · simp [hside.1, bumpAt]
    · rw [hspec, if_neg (fun hx => hdec (hsame.mp hx)), if_neg hdec,
        if_neg hdec]
      exact ⟨by simp [hside.2], by simp [hside.1]⟩
  constructor
  · rw [processItems_append]
    exact key cfg (processItems cfg pre d rel st).2 rfl rfl
  · intro sr
    have h1 := key { cfg with structureExclude := sr }
      (processItems cfg pre d rel st).2 rfl rfl
    have h2 := key cfg (processItems cfg pre d rel st).2 rfl rfl
    rw [h1.1, h2.1]

/-- A root with one subdirectory holding one file. -/
def fsNested : FSEntry :=
  .dir "r" false [.dir "d" false [.file "f.txt" 1 true "x" false]]

/-- Counterexample to C5 as stated: scanning `r/d/f.txt`, the root's
immediate directory child `d` carries depth 1, not 0; and the file
child `f.txt` of `d` carries its parent's depth 1, not parent + 1 =
2. -/
theorem root_child_depth_not_zero_counterexample :
    (scanDirectory cfgDefault (some fsNested)).toOption.map
        (fun r => r.struct.map (fun nd =>
          (nd.depth, nd.children.map (fun c =>
            (c.name, c.is_dir, c.depth, c.children.map (fun g =>
              (g.name, g.is_dir, g.depth))))))) =
      some (some (0, [("d", true, 1, [("f.txt", false, 1)])])) := by
  simp [scanDirectory, fsNested, cfgDefault, processDirectory, processItems,
    initState, shouldIncludeContent, pySuffix, bumpAt, fileStructRes,
    fileContentStep, stableSort, stableInsert]
  exact ⟨_, rfl, _, rfl, rfl, rfl⟩

/-- C5 amended.  The root node carries depth 0; every directory node's
depth is its parent's depth plus one, while every file node's depth is
its parent's depth itself (file nodes are created with
`depth=current_depth`, the depth of the directory being listed).  In
particular the root's immediate directory children have depth 1 and its
immediate file children depth 0. -/
theorem depth_convention_of_nodes (cfg : LoadedConfig) (fs : FSEntry)
    (r : ScanResult) (nd : DirectoryStructure)
    (hok : scanDirectory cfg (some fs) = .ok r)
    (hst : r.struct = some nd) :
    nd.depth = 0 ∧ depthInv nd = true := by
  have key : ∀ (name : String) (listErr : Bool) (children : List FSEntry),
      (ScanResult.mk
          (processDirectory cfg name listErr children 0 "" initState).1
          (processDirectory cfg name listErr children 0 ""
            initState).2.filesContent).struct = some nd →
      nd.depth = 0 ∧ depthInv nd = true := by
    intro name listErr children h
    have h' : (processDirectory cfg name listErr children 0 "" initState).1 =
        some nd := h
    obtain ⟨-, h2, h3⟩ := depthInv_processDirectory cfg name listErr children 0
      "" initState nd _ (Prod.ext h' rfl)
    exact ⟨h2, h3⟩
  cases fs with
  | dir n listErr cs =>
    simp only [scanDirectory] at hok
    cases hok
    exact key n listErr cs hst
  | file n sz u c re =>
    simp only [scanDirectory] at hok
    cases hok
    exact key n true [] hst

/-- Witness for C5 amended at the concrete nested scan. -/
theorem depth_convention_of_nodes_witness :
    (⟨"r", "r", true,
      [⟨"d", "r/d", true, [⟨"f.txt", "r/d/f.txt", false, [], 1⟩], 1⟩], 0⟩ :
        DirectoryStructure).depth = 0 ∧
    depthInv
      (⟨"r", "r", true,
        [⟨"d", "r/d", true, [⟨"f.txt", "r/d/f.txt", false, [], 1⟩], 1⟩], 0⟩ :
          DirectoryStructure) = true :=
  depth_convention_of_nodes cfgDefault fsNested
    ⟨some ⟨"r", "r", true,
      [⟨"d", "r/d", true, [⟨"f.txt", "r/d/f.txt", false, [], 1⟩], 1⟩], 0⟩,
      [⟨"r/d/f.txt", "x", 1⟩]⟩
    ⟨"r", "r", true,
      [⟨"d", "r/d", true, [⟨"f.txt", "r/d/f.txt", false, [], 1⟩], 1⟩], 0⟩
    (by
      simp [scanDirectory, fsNested, cfgDefault, processDirectory,
        processItems, initState, shouldIncludeContent, pySuffix, bumpAt,
        fileStructRes, fileContentStep, stableSort, stableInsert])
    rfl

/-- Counterexample to C10 as stated: for an entryless root directory
the filter closure never runs, so no `KeyError` is raised and the
outline helper returns the root line — the claim says no tree line is
emitted for every root path. -/
theorem empty_root_emits_root_line_counterexample :
    generateStructure cfgDefault (.dir "r" false []) = ["r/"] :=
  addToStructure_emptyDir cfgDefault "r"

/-- C10 amended.  The configuration dictionary carries the key
`structure_exclude` and not `exclude_structure`, so the outline
builder's filter raises `KeyError` on the first item it tests; the
exception is caught per directory, and for every root directory with at
least one entry (or whose listing fails) the helper returns no lines at
all — the `<structure>` section of the document is empty.  Only an
entryless root escapes the filter and yields exactly its root line. -/
theorem structure_outline_empty_on_key_error :
    (∀ cfg : LoadedConfig,
      configGet cfg "structure_exclude" =
          some (.structRules cfg.structureExclude) ∧
        configGet cfg "exclude_structure" = none) ∧
    (∀ (cfg : LoadedConfig) (item : FSEntry),
      shouldIncludeE cfg item = .error .keyError) ∧
    (∀ (cfg : LoadedConfig) (name : String) (listErr : Bool) (c : FSEntry)
        (cs : List FSEntry),
      generateStructure cfg (.dir name listErr (c :: cs)) = []) ∧
    (∀ (cfg : LoadedConfig) (name : String) (listErr : Bool) (c : FSEntry)
        (cs : List FSEntry) (rootName ts : String)
        (files : List ContentRecord),
      List.IsInfix ["<structure>", "</structure>"]
        (buildLines cfg rootName ts (.dir name listErr (c :: cs)) files)) ∧
    (∀ (cfg : LoadedConfig) (name : String),
      generateStructure cfg (.dir name false []) = [name ++ "/"]) := by
  refine ⟨fun cfg => ⟨rfl, rfl⟩, shouldIncludeE_keyError, ?_, ?_, ?_⟩
  · intro cfg name listErr c cs
    exact addToStructure_nonempty cfg name listErr c cs 0
  · intro cfg name listErr c cs rootName ts files
    unfold buildLines
    rw [show generateStructure cfg (.dir name listErr (c :: cs)) =
      addToStructure cfg (.dir name listErr (c :: cs)) 0 from rfl]
    rw [addToStructure_nonempty cfg name listErr c cs 0]
    refine ⟨["<?xml version=\"1.0\" encoding=\"UTF-8\"?>", "<code>"] ++
      projectContextLines rootName ts ++
      ["<structure_explanation>", "    " ++ structureExplanationText,
       "</structure_explanation>"],
      (files.map recLines).flatten ++ ["</code>"], ?_⟩
    simp
  · intro cfg name
    exact addToStructure_emptyDir cfg name

/-- C3 amended.  The serializer computes no orphan set: after the
structure section it emits every ContentRecord unconditionally — orphan
or not — one tag block per record with the sanitized path-derived name,
in the records' given (discovery) order, with no dedicated section and
no sorting.  Orphaned content is therefore never dropped, because
nothing is dropped. -/
theorem all_records_emitted (cfg : LoadedConfig) (rootName ts : String)
    (rootFs : FSEntry) (files : List ContentRecord) (r : ContentRecord)
    (h : r ∈ files) :
    ("<" ++ createTagName r.path ++ ">") ∈
        buildLines cfg rootName ts rootFs files ∧
      wrapContent r.content ∈ buildLines cfg rootName ts rootFs files ∧
      ("</" ++ createTagName r.path ++ ">") ∈
        buildLines cfg rootName ts rootFs files := by
  have hsub : ∀ x ∈ recLines r, x ∈ buildLines cfg rootName ts rootFs files := by
    intro x hx
    unfold buildLines
    refine List.mem_append.mpr (Or.inl (List.mem_append.mpr (Or.inr ?_)))
    exact List.mem_flatten.mpr ⟨recLines r, List.mem_map_of_mem _ h, hx⟩
  exact ⟨hsub _ (by simp [recLines]), hsub _ (by simp [recLines]),
    hsub _ (by simp [recLines])⟩

/-- Witness for C3 amended at a concrete record list. -/
theorem all_records_emitted_witness :
    ("<" ++ createTagName "r/a.txt" ++ ">") ∈
        buildLines cfgDefault "r" "" (.dir "r" false [])
          [⟨"r/a.txt", "A", 0⟩] ∧
      wrapContent "A" ∈ buildLines cfgDefault "r" "" (.dir "r" false [])
        [⟨"r/a.txt", "A", 0⟩] ∧
      ("</" ++ createTagName "r/a.txt" ++ ">") ∈
        buildLines cfgDefault "r" "" (.dir "r" false [])
          [⟨"r/a.txt", "A", 0⟩] :=
  all_records_emitted cfgDefault "r" "" (.dir "r" false [])
    [⟨"r/a.txt", "A", 0⟩] ⟨"r/a.txt", "A", 0⟩ (by simp)

theorem createTagName_rb : createTagName "r/b.txt" = "r_b.txt" := by
  have h : collapseRuns ['r', '_', 'b', '.', 't', 'x', 't'] =
      ['r', '_', 'b', '.', 't', 'x', 't'] := by
    simp [collapseRuns, isSeparator]
  simp [createTagName, sanitizeTagName, h, tagAllowed, isAsciiAlpha]

theorem createTagName_ra : createTagName "r/a.txt" = "r_a.txt" := by
  have h : collapseRuns ['r', '_', 'a', '.', 't', 'x', 't'] =
      ['r', '_', 'a', '.', 't', 'x', 't'] := by
    simp [collapseRuns, isSeparator]
  simp [createTagName, sanitizeTagName, h, tagAllowed, isAsciiAlpha]

theorem wrapContent_B : wrapContent "B" = "<![CDATA[B]]>" := by
  unfold wrapContent
  rw [replacePlaceholder_self]
  rw [show replaceCdataEnd ("B".toList) = ['B'] from by
    simp [replaceCdataEnd, cdataEndL]]
  rfl

theorem wrapContent_A : wrapContent "A" = "<![CDATA[A]]>" := by
  unfold wrapContent
  rw [replacePlaceholder_self]
  rw [show replaceCdataEnd ("A".toList) = ['A'] from by
    simp [replaceCdataEnd, cdataEndL]]
  rfl

/-- Counterexample to C3 as stated: serializing the records for
`r/b.txt` and then `r/a.txt` against a structure in which neither
appears (so both are orphans in the claim's sense), the document
carries the tag block for `r/b.txt` before the one for `r/a.txt`: the
records are emitted in discovery order, not sorted by path as the claim
requires, and no dedicated orphan section is computed — the blocks
follow the structure section directly. -/
theorem records_not_sorted_by_path_counterexample :
    buildLines cfgDefault "r" "" (.dir "r" false [])
        [⟨"r/b.txt", "B", 0⟩, ⟨"r/a.txt", "A", 0⟩] =
      ["<?xml version=\"1.0\" encoding=\"UTF-8\"?>", "<code>",
       "<project_context>", "    <project_name>r</project_name>",
       "    <generation_timestamp></generation_timestamp>",
       "</project_context>",
       "<structure_explanation>", "    " ++ structureExplanationText,
       "</structure_explanation>",
       "<structure>", "r/", "</structure>",
       "<r_b.txt>", "<![CDATA[B]]>", "</r_b.txt>",
       "<r_a.txt>", "<![CDATA[A]]>", "</r_a.txt>",
       "</code>"] := by
  have hesc : xmlEscape "r" = "r" := rfl
  simp [buildLines, projectContextLines, recLines, generateStructure,
    addToStructure_emptyDir, hesc, createTagName_rb, createTagName_ra,
    wrapContent_B, wrapContent_A]

theorem wrapContent_null : wrapContent "\x00" = "<![CDATA[\x00]]>" := by
  unfold wrapContent
  rw [replacePlaceholder_self]
  rw [show replaceCdataEnd ("\x00".toList) = ['\x00'] from by
    simp [replaceCdataEnd, cdataEndL]]
  rfl

theorem wrapContent_mem_buildLines (cfg : LoadedConfig) (rootName ts : String)
    (rootFs : FSEntry) (files : List ContentRecord) (r : ContentRecord)
    (h : r ∈ files) :
    wrapContent r.content ∈ buildLines cfg rootName ts rootFs files := by
  unfold buildLines
  refine List.mem_append.mpr (Or.inl (List.mem_append.mpr (Or.inr ?_)))
  exact List.mem_flatten.mpr ⟨recLines r, List.mem_map_of_mem _ h,
    by simp [recLines]⟩

/-- A character outside the XML 1.0 `Char` production appearing in some
record's wrapped content reaches the joined document verbatim, so the
`ET.fromstring` self-check cannot pass and `generate_xml` raises
`ValueError`. -/
theorem generateXml_invalidChar_error (cfg : LoadedConfig)
    (rootName ts : String) (rootFs : FSEntry) (files : List ContentRecord)
    (r : ContentRecord) (c : Char) (hmem : r ∈ files)
    (hcw : c ∈ (wrapContent r.content).toList)
    (hbad : xml10ValidChar c = false) :
    generateXml cfg rootName ts rootFs (.ofRecords files) =
      .error .valueError := by
  have hline := wrapContent_mem_buildLines cfg rootName ts rootFs files r hmem
  have hdoc : c ∈ (joinLines (buildLines cfg rootName ts rootFs files)).toList :=
    mem_toList_joinLines _ _ hline c hcw
  have hall : xml10CharsOk (joinLines (buildLines cfg rootName ts rootFs files))
      = false := by
    unfold xml10CharsOk
    cases hx : (joinLines (buildLines cfg rootName ts rootFs files)).toList.all
        xml10ValidChar with
    | false => rfl
    | true => exact absurd (List.all_eq_true.mp hx c hdoc) (by simp [hbad])
  unfold generateXml
  simp [iterFilesArg, hall]

/-- Counterexample to C4 as stated: a record whose content is the
single character U+0000 — invalid in XML 1.0, rejected even by the
code's own `XML_VALID_CHARS` class — is neither stripped nor escaped
(`generate_xml` never applies `_clean_xml_string` to content), reaches
the document verbatim through `_wrap_content`, and the well-formedness
self-check therefore fails: `serialize` raises instead of
succeeding. -/
theorem invalid_char_not_stripped_counterexample :
    generateXml cfgDefault "r" "" (.dir "r" false [])
        (.ofRecords [⟨"r/a.txt", "\x00", 0⟩]) = .error .valueError ∧
      validXmlChar '\x00' = false ∧
      cleanXmlString (wrapContent "\x00") ≠ wrapContent "\x00" := by
  refine ⟨?_, by decide, ?_⟩
  · exact generateXml_invalidChar_error cfgDefault "r" "" (.dir "r" false [])
      [⟨"r/a.txt", "\x00", 0⟩] ⟨"r/a.txt", "\x00", 0⟩ '\x00' (by simp)
      (by show '\x00' ∈ (wrapContent "\x00").toList
          rw [wrapContent_null]; decide)
      (by decide)
  · rw [wrapContent_null]
    decide

/-- C4 amended.  Every `]]>` in content is neutralized by
split-and-rejoin: the CDATA-wrapped content decodes back to exactly the
original text, so no substring of the content can terminate the
embedded block prematurely (and no character of the content is
stripped — the original text is recoverable verbatim).  The wrapped
content of every record reaches a line of the document unchanged;
consequently, when any record's content carries a character outside the
XML 1.0 `Char` production, the well-formedness self-check fails and
`serialize` raises `ValueError` instead of succeeding. -/
theorem cdata_neutralization_roundtrip :
    (∀ s : String, parseCdata (wrapContent s).toList = some s.toList) ∧
    (∀ (cfg : LoadedConfig) (rootName ts : String) (rootFs : FSEntry)
        (files : List ContentRecord) (r : ContentRecord), r ∈ files →
      wrapContent r.content ∈ buildLines cfg rootName ts rootFs files) ∧
    (∀ (cfg : LoadedConfig) (rootName ts : String) (rootFs : FSEntry)
        (files : List ContentRecord) (r : ContentRecord) (c : Char),
      r ∈ files → c ∈ (wrapContent r.content).toList →
      xml10ValidChar c = false →
      generateXml cfg rootName ts rootFs (.ofRecords files) =
        .error .valueError) :=
  ⟨parseCdata_wrapContent, wrapContent_mem_buildLines,
   generateXml_invalidChar_error⟩

/-- Witness for C4 amended: the roundtrip at a content that contains
`]]>`, the membership conjunct at a concrete record list, and the
invalid-character conjunct at a concrete record containing U+0000. -/
theorem cdata_neutralization_roundtrip_witness :
    parseCdata (wrapContent "a]]>b").toList = some "a]]>b".toList ∧
    wrapContent "A" ∈ buildLines cfgDefault "r" "" (.dir "r" false [])
      [⟨"r/a.txt", "A", 0⟩] ∧
    generateXml cfgDefault "p" "" (.dir "p" false [])
      (.ofRecords [⟨"p/a.txt", "\x00", 0⟩]) = .error .valueError :=
  ⟨cdata_neutralization_roundtrip.1 "a]]>b",
   cdata_neutralization_roundtrip.2.1 cfgDefault "r" "" (.dir "r" false [])
     [⟨"r/a.txt", "A", 0⟩] ⟨"r/a.txt", "A", 0⟩ (by simp),
   cdata_neutralization_roundtrip.2.2 cfgDefault "p" "" (.dir "p" false [])
     [⟨"p/a.txt", "\x00", 0⟩] ⟨"p/a.txt", "\x00", 0⟩ '\x00' (by simp)
     (by show '\x00' ∈ (wrapContent "\x00").toList
         rw [wrapContent_null]; decide)
     (by decide)⟩
